import Mathlib

/-!
Shallow embedding of the hardened_malloc core (src/malloc.c, src/util.h):
the small-object slab engine, the large-allocation region table, and the
dispatcher, together with proofs about the claims of the specification.

Modelling conventions:
* machine integers (`size_t`, `uint64_t`) are `Nat` with explicit `% 2^64`
  where C overflow/underflow semantics matter (`sub64`, `hash_page`);
* pointers are `Nat` addresses; the C null pointer is the address `0`
  (wrapped in `Option` at the public entry points where C compares with
  `NULL` directly);
* `fatal_error s` is `Except.error s`;
* external collaborators (the OS page provider and the PRNG, which the
  spec declares out of scope) are oracles: the PRNG is a stream of `Nat`
  draws, fallible page-provider calls take a `Bool` (or `Option Nat`)
  describing the outcome of the call; their memory effects are recorded
  in a `MemEffect` list;
* the intrusive doubly/singly linked lists threaded through
  `struct slab_metadata` (`partial_slabs`, `empty_slabs`, free list) are
  modelled as Lean lists of metadata indices: cons = push at head
  (`c->... = metadata`), append = tail enqueue (`enqueue_free_slab`),
  `List.erase` = unlink via the `prev`/`next` pointers;
* `index & mask` with `mask = total - 1` is written `index % total`
  (`regions_total` is a power of two, kept ≥ 256 by the state invariant);
* the `init()` lazy-initialization path is the identity: every theorem is
  stated over already-initialized allocator states (`initialized = true`),
  matching `is_init()`.
-/

set_option maxRecDepth 40000

namespace HardenedMalloc

/-! ### Configuration constants

config.h is not part of src/.  Modelled from the spec: the specified
configuration has slab canaries ("canary eats 8"), zero-on-free,
write-after-free checks, slot randomization and guard slabs enabled. -/

/-- Modelled from the spec: config.h is missing; SLAB_CANARY is enabled, so
`canary_size = sizeof(uint64_t) = 8` ("visible usable size is 24 (canary eats 8)"). -/
def canary_size : Nat := 8

/-- Modelled from the spec: ZERO_ON_FREE is enabled ("zero the slot's object
bytes (minus canary) if zero-on-free enabled"). -/
def ZERO_ON_FREE : Bool := true

/-- Modelled from the spec: WRITE_AFTER_FREE_CHECK is enabled (it statically
requires ZERO_ON_FREE in malloc.c). -/
def WRITE_AFTER_FREE_CHECK : Bool := true

/-- Modelled from the spec: SLOT_RANDOMIZE is enabled ("randomize start
location for linear search"). -/
def SLOT_RANDOMIZE : Bool := true

/-- Modelled from the spec: GUARD_SLABS is enabled ("every other slab index is
skipped (slab count halved, unused pages act as guards)"). -/
def GUARD_SLABS : Bool := true

def PAGE_SIZE : Nat := 4096

def PAGE_SHIFT : Nat := 12

/-- Modulus of 64-bit machine arithmetic. -/
def U64_MOD : Nat := 2 ^ 64

/-- PAGE_CEILING from pages.h (not in src/).  Modelled from the spec:
"page_ceil", round up to a multiple of the page size. -/
def PAGE_CEILING (s : Nat) : Nat := (s + PAGE_SIZE - 1) / PAGE_SIZE * PAGE_SIZE

/-- C `(size_t)a - (size_t)b`: wrapping 64-bit subtraction. -/
def sub64 (a b : Nat) : Nat := (a % U64_MOD + U64_MOD - b % U64_MOD) % U64_MOD

def min_align : Nat := 16

def max_slab_size_class : Nat := 16384

def size_classes : List Nat :=
  [0,
   16, 32, 48, 64, 80, 96, 112, 128,
   160, 192, 224, 256,
   320, 384, 448, 512,
   640, 768, 896, 1024,
   1280, 1536, 1792, 2048,
   2560, 3072, 3584, 4096,
   5120, 6144, 7168, 8192,
   10240, 12288, 14336, 16384]

def size_class_slots : List Nat :=
  [256,
   256, 128, 85, 64, 51, 42, 36, 64,
   51, 64, 54, 64,
   64, 64, 64, 64,
   64, 64, 64, 64,
   16, 16, 16, 16,
   8, 8, 8, 8,
   8, 8, 8, 8,
   6, 5, 4, 4]

def N_SIZE_CLASSES : Nat := 37

/-- struct size_info; the C field `class` is a Lean keyword, renamed
`class_idx`. -/
structure size_info where
  size : Nat
  class_idx : Nat
deriving DecidableEq, Repr

/-- get_size_info.  The `fatal_error("invalid size for slabs")` case (only
reachable for `size > max_slab_size_class`) is `none`. -/
def get_size_info (size : Nat) : Option size_info :=
  if size = 0 then some ⟨0, 0⟩
  else if size ≤ 128 then
    -- (size + 15) & ~15, ((size - 1) >> 4) + 1
    some ⟨(size + 15) / 16 * 16, (size - 1) / 16 + 1⟩
  else
    ((List.range N_SIZE_CLASSES).drop 9).findSome? fun c =>
      let real_size := size_classes.getD c 0
      if size ≤ real_size then some ⟨real_size, c⟩ else none

def get_slab_size (slots size : Nat) : Nat := PAGE_CEILING (slots * size)

/-- limit on the number of cached empty slabs before attempting purging instead -/
def max_empty_slabs_total : Nat := 64 * 1024

def class_region_size : Nat := 128 * 1024 * 1024 * 1024

def real_class_region_size : Nat := class_region_size * 2

def slab_region_size : Nat := real_class_region_size * N_SIZE_CLASSES

/-! ### Region table (large allocations) -/

structure region_info where
  p : Nat
  size : Nat
  guard_size : Nat
deriving DecidableEq, Repr

/-- a cleared table cell: `p = NULL` marks an empty slot -/
def emptyRI : region_info := ⟨0, 0, 0⟩

def initial_region_table_size : Nat := 256

def max_region_table_size : Nat := class_region_size / PAGE_SIZE

/-- The region-table state: the backing array (`regions`, length
`regions_total`), and the counters `regions_total` / `regions_free`. -/
structure RegionsState where
  regions : List region_info
  regions_total : Nat
  regions_free : Nat
deriving DecidableEq, Repr

/-- hash_page: fold `p >> PAGE_SHIFT` with `sum = (sum << 7) - sum + (u >> k)`
over the pointer's upper words; `(sum << 7) - sum` in wrapping 64-bit
arithmetic is congruent to `sum * 127` mod 2^64. -/
def hash_page (p : Nat) : Nat :=
  let u := (p % U64_MOD) >>> PAGE_SHIFT
  let sum := u
  let sum := (sum * 127 + (u >>> 16)) % U64_MOD
  let sum := (sum * 127 + (u >>> 32)) % U64_MOD
  let sum := (sum * 127 + (u >>> 48)) % U64_MOD
  sum

/-- `index = (index - 1) & mask`: probe downward one step (cyclically). -/
def dec_index (total i : Nat) : Nat := (i + total - 1) % total

/-- The probe loop of regions_insert (and of the rehash in regions_grow):
scan downward from `index` for the first empty cell.  The C loop has no
bound; fuel `total` suffices whenever an empty cell exists (proved below). -/
def probe_empty (regions : List region_info) (total : Nat) : Nat → Nat → Option Nat
  | _, 0 => none
  | index, fuel + 1 =>
    if (regions.getD index emptyRI).p = 0 then some index
    else probe_empty regions total (dec_index total index) fuel

/-- Place one entry into a table by the downward probe (shared by
regions_insert and the rehash loop of regions_grow). -/
def place_entry (regions : List region_info) (total : Nat) (e : region_info) :
    Option (List region_info) :=
  match probe_empty regions total (hash_page e.p % total) total with
  | none => none
  | some index => some (regions.set index e)

/-- One iteration of the rehash loop of regions_grow: skip empty cells,
probe-place occupied ones. -/
def rehash_step (newtotal : Nat) (acc : Option (List region_info)) (cell : region_info) :
    Option (List region_info) :=
  match acc with
  | none => none
  | some t => if cell.p ≠ 0 then place_entry t newtotal cell else some t

/-- regions_grow: double into the other buffer, rehashing every occupied
entry.  `protect_ok` is the outcome of the `memory_protect_rw` call on the
target buffer; `none` models `return 1`. -/
def regions_grow (s : RegionsState) (protect_ok : Bool) : Option RegionsState :=
  if s.regions_total > (2 ^ 64 - 1) / 24 / 2 then none  -- SIZE_MAX / sizeof(struct region_info) / 2
  else
    let newtotal := s.regions_total * 2
    if newtotal > max_region_table_size then none
    else if ¬ protect_ok then none
    else
      match s.regions.foldl (rehash_step newtotal) (some (List.replicate newtotal emptyRI)) with
      | none => none
      | some t => some ⟨t, newtotal, s.regions_free + s.regions_total⟩

/-- regions_insert.  `none` models `return 1` (grow needed but failed); the
state is unchanged in that case, exactly as in C where nothing has been
written yet. -/
def regions_insert (s : RegionsState) (grow_protect_ok : Bool)
    (p size guard_size : Nat) : Option RegionsState :=
  match (if s.regions_free * 4 < s.regions_total then regions_grow s grow_protect_ok
         else some s) with
  | none => none
  | some s1 =>
    match probe_empty s1.regions s1.regions_total
        (hash_page p % s1.regions_total) s1.regions_total with
    | none => none
    | some index =>
      some { s1 with
        regions := s1.regions.set index ⟨p, size, guard_size⟩,
        regions_free := s1.regions_free - 1 }

/-- The probe loop of regions_find: `while (r != p && r != NULL)` stepping
downward; found iff it stopped on `r == p && r != NULL`. -/
def regions_find_loop (regions : List region_info) (total p : Nat) :
    Nat → Nat → Option Nat
  | _, 0 => none
  | index, fuel + 1 =>
    let r := (regions.getD index emptyRI).p
    if r ≠ p ∧ r ≠ 0 then regions_find_loop regions total p (dec_index total index) fuel
    else if r = p ∧ r ≠ 0 then some index
    else none

def regions_find (s : RegionsState) (p : Nat) : Option Nat :=
  regions_find_loop s.regions s.regions_total p
    (hash_page p % s.regions_total) s.regions_total

/-- The skip predicate of the backward-shift deletion: `r` (the ideal bucket
of the probed item at `i`) lies cyclically in `[i, j)`, so the item does not
belong upstream of the gap `j` and stays put. -/
def delete_cond (i r j : Nat) : Bool :=
  (decide (i ≤ r) && decide (r < j)) || (decide (r < j) && decide (j < i)) ||
    (decide (j < i) && decide (i ≤ r))

/-- The inner loop of regions_delete: from the gap `j`, step `i` downward;
stop on an empty cell (`none`, deletion complete) or on the first item whose
ideal bucket fails `delete_cond` (`some i`, the item must be shifted into the
gap). -/
def delete_scan (regions : List region_info) (total j : Nat) : Nat → Nat → Option Nat
  | _, 0 => none
  | i, fuel + 1 =>
    let i1 := dec_index total i
    if (regions.getD i1 emptyRI).p = 0 then none
    else
      let r := hash_page (regions.getD i1 emptyRI).p % total
      if delete_cond i1 r j then delete_scan regions total j i1 fuel
      else some i1

/-- The outer loop of regions_delete: clear the current slot, scan for an
item that belongs upstream of the gap, shift it up, continue from its old
position. -/
def delete_outer (total : Nat) : Nat → List region_info → Nat → List region_info
  | 0, regions, _ => regions
  | fuel + 1, regions, i =>
    let cleared := regions.set i { regions.getD i emptyRI with p := 0, size := 0 }
    match delete_scan cleared total i i total with
    | none => cleared
    | some i2 => delete_outer total fuel (cleared.set i (cleared.getD i2 emptyRI)) i2

/-- regions_delete of the entry at index `slot` (C passes the pointer
`&regions[slot]`; `slot = region - regions`). -/
def regions_delete (s : RegionsState) (slot : Nat) : RegionsState :=
  { s with
    regions_free := s.regions_free + 1,
    regions := delete_outer s.regions_total s.regions_total s.regions slot }

/-- number of occupied cells of a table -/
def occupiedCount (l : List region_info) : Nat := l.countP (fun c => c.p != 0)

/-- The region table as initialized by init_slow_path: 256 zeroed cells,
`regions_total = regions_free = initial_region_table_size`. -/
def init_regions : RegionsState :=
  ⟨List.replicate initial_region_table_size emptyRI,
   initial_region_table_size, initial_region_table_size⟩

/-- One large-allocation operation on the region table, as performed by the
callers in malloc.c: an insert of a fresh non-null base pointer (`allocate` /
`alloc_aligned` insert pointers returned by `allocate_pages`, which are never
already present), or a delete of a found entry (`deallocate_large` /
`h_realloc` delete only `regions_find` results). -/
inductive RTStep : RegionsState → RegionsState → Prop where
  | insert (s : RegionsState) (ok : Bool) (p size guard_size : Nat) (s' : RegionsState)
      (hp : p ≠ 0)
      (hfresh : ∀ i, i < s.regions_total → (s.regions.getD i emptyRI).p ≠ p)
      (hins : regions_insert s ok p size guard_size = some s') : RTStep s s'
  | delete (s : RegionsState) (p slot : Nat)
      (hfind : regions_find s p = some slot) : RTStep s (regions_delete s slot)

/-- Region-table states reachable from the initial table by any sequence of
large-allocation inserts and deletes. -/
def RTReach (s : RegionsState) : Prop := Relation.ReflTransGen RTStep init_regions s

/-! ### Slab engine (small allocations) -/

/-- struct slab_metadata.  The intrusive `next`/`prev` links are modelled by
the index lists in `size_class` instead of per-node pointers. -/
structure slab_metadata where
  bitmap : Nat
  canary_value : Nat
deriving DecidableEq, Repr

/-- freshly committed metadata memory is zero-filled (anonymous pages) -/
def zero_metadata : slab_metadata := ⟨0, 0⟩

/-- struct size_class.  The C field `partial_slabs` is named `inuse_slabs`
here; `free_slabs` is the FIFO list with head `free_slabs_head` and tail
`free_slabs_tail`.  The libdivide divisors are not stored: they encode exact
division by the object size resp. the slab size, which the model performs
directly.  `rng` is the oracle stream backing this class's PRNG state. -/
structure size_class where
  class_region_start : Nat
  slab_info : List slab_metadata
  inuse_slabs : List Nat
  empty_slabs : List Nat
  empty_slabs_total : Nat
  free_slabs : List Nat
  rng : List Nat
  metadata_allocated : Nat
  metadata_count : Nat
deriving DecidableEq, Repr

def default_class : size_class := ⟨0, [], [], [], 0, [], [], 0, 0⟩

/-- PRNG draw `get_random_u64` (external, modelled as popping the oracle
stream; a value is reduced mod 2^64). -/
def get_random_u64 (rng : List Nat) : Nat × List Nat :=
  match rng with
  | [] => (0, [])
  | v :: rest => (v % U64_MOD, rest)

/-- PRNG draw `get_random_u16_uniform(rng, bound)`: uniform in `[0, bound)`
(external; modelled as the popped value reduced mod `bound`). -/
def get_random_u16_uniform (rng : List Nat) (bound : Nat) : Nat × List Nat :=
  match rng with
  | [] => (0, [])
  | v :: rest => (v % max bound 1, rest)

/-- PRNG draw `get_random_u64_uniform(rng, bound)` (external). -/
def get_random_u64_uniform (rng : List Nat) (bound : Nat) : Nat × List Nat :=
  match rng with
  | [] => (0, [])
  | v :: rest => (v % max bound 1, rest)

def get_metadata_max (slab_size : Nat) : Nat := class_region_size / slab_size

/-- get_slab: address of the slab of metadata index `index`
(`class_region_start + index * slab_size`). -/
def get_slab (c : size_class) (slab_size index : Nat) : Nat :=
  c.class_region_start + index * slab_size

/-- ffzl from util.h: one-based index of the lowest zero bit of the 64-bit
value, 0 if there is none (`__builtin_ffsl(~x)`). -/
def ffzl (x : Nat) : Nat :=
  match (List.range 64).find? (fun i => (x >>> i) % 2 == 0) with
  | some i => i + 1
  | none => 0

/-- get_mask: `slots < 64 ? ~0UL << slots : 0` (64-bit). -/
def get_mask (slots : Nat) : Nat := if slots < 64 then U64_MOD - 2 ^ slots else 0

/-- set_slot with its check_index guard. -/
def set_slot (m : slab_metadata) (index : Nat) : Except String slab_metadata :=
  if index ≥ 64 then .error "invalid index"
  else .ok { m with bitmap := m.bitmap ||| 2 ^ index }

/-- clear_slot with its check_index guard; `&= ~(1UL << index)`. -/
def clear_slot (m : slab_metadata) (index : Nat) : Except String slab_metadata :=
  if index ≥ 64 then .error "invalid index"
  else .ok { m with bitmap := m.bitmap &&& (U64_MOD - 1 - 2 ^ index) }

/-- get_slot with its check_index guard. -/
def get_slot (m : slab_metadata) (index : Nat) : Except String Bool :=
  if index ≥ 64 then .error "invalid index"
  else .ok ((m.bitmap >>> index) % 2 == 1)

/-- get_free_slot: randomized search for a zero bit of the occupancy bitmap. -/
def get_free_slot (rng : List Nat) (slots0 : Nat) (metadata : slab_metadata) :
    Except String (Nat × List Nat) :=
  let slots := if slots0 > 64 then 64 else slots0
  let masked := metadata.bitmap ||| get_mask slots
  if masked = U64_MOD - 1 then .error "no zero bits"
  else if SLOT_RANDOMIZE then
    -- randomize start location for linear search
    let (rv, rng') := get_random_u16_uniform rng slots
    let random_split := 2 ^ rv - 1  -- ~(~0UL << rv)
    let slot := ffzl (masked ||| random_split)
    if slot ≠ 0 then .ok (slot - 1, rng')
    else .ok (ffzl masked - 1, rng')
  else .ok (ffzl masked - 1, rng)

def has_free_slots (slots0 : Nat) (metadata : slab_metadata) : Bool :=
  let slots := if slots0 > 64 then 64 else slots0
  metadata.bitmap ||| get_mask slots != U64_MOD - 1

def is_free_slab (metadata : slab_metadata) : Bool := metadata.bitmap == 0

def slot_pointer (size slab slot : Nat) : Nat := slab + slot * size

/-- canary_mask for a little-endian target: the low byte of a canary must be
zero (`0xffffffffffffff00`; on big-endian the high byte instead). -/
def canary_mask : Nat := U64_MOD - 256

/-- Memory / page-provider effects performed by the engine, recorded instead
of modelling byte-level memory contents. -/
inductive MemEffect where
  | wafc_check (p size : Nat)       -- write_after_free_check(p, size)
  | canary_write (p size : Nat)     -- set_canary(metadata, p, size)
  | zero_write (p size : Nat)       -- memset(p, 0, size)
  | slab_protect_rw (addr size : Nat)
  | slab_map_fixed (addr size : Nat)
  | pages_alloc (size guard : Nat)
  | pages_free (addr size guard : Nat)
  | mem_copy (dst src size : Nat)   -- memcpy(dst, src, size)
  | mem_unmap (addr size : Nat)
deriving DecidableEq, Repr

/-- Tail of alloc_metadata: commit the new slab's pages if the request is
non-zero-sized, then bump `metadata_count` (twice with guard slabs). -/
def alloc_metadata_commit (c : size_class) (non_zero_size protect_slab_ok : Bool) :
    Option Nat × size_class :=
  if non_zero_size ∧ ¬ protect_slab_ok then (none, c)
  else (some c.metadata_count,
    { c with metadata_count := c.metadata_count + (if GUARD_SLABS then 2 else 1) })

/-- alloc_metadata.  On metadata-array growth the newly committed entries are
zero-filled pages.  The two `memory_protect_rw` outcomes are the oracle
arguments. -/
def alloc_metadata (c : size_class) (slab_size : Nat) (non_zero_size : Bool)
    (protect_meta_ok protect_slab_ok : Bool) : Option Nat × size_class :=
  if c.metadata_count ≥ c.metadata_allocated then
    let metadata_max := get_metadata_max slab_size
    if c.metadata_count ≥ metadata_max then (none, c)  -- errno = ENOMEM
    else
      let allocate := min (c.metadata_allocated * 2) metadata_max
      if ¬ protect_meta_ok then (none, c)
      else
        alloc_metadata_commit
          { c with
            metadata_allocated := allocate,
            slab_info := c.slab_info ++
              List.replicate (allocate - c.slab_info.length) zero_metadata }
          non_zero_size protect_slab_ok
  else alloc_metadata_commit c non_zero_size protect_slab_ok

/-- allocate_small.  Returns `(returned pointer or NULL, updated classes,
memory effects)`; `Except.error` is a fatal_error.  `protect_meta_ok` /
`protect_slab_ok` are the outcomes of the possible `memory_protect_rw`
calls. -/
def allocate_small (classes : List size_class) (requested_size : Nat)
    (protect_meta_ok protect_slab_ok : Bool) :
    Except String (Option Nat × List size_class × List MemEffect) :=
  match get_size_info requested_size with
  | none => .error "invalid size for slabs"
  | some info =>
    let size := if info.size ≠ 0 then info.size else 16
    let ci := info.class_idx
    let c := classes.getD ci default_class
    let slots := size_class_slots.getD ci 0
    let slab_size := get_slab_size slots size
    match c.inuse_slabs with
    | [] =>
      match c.empty_slabs with
      | index :: rest =>
        -- pop from the empty list, move to the partial list
        let c := { c with
          empty_slabs := rest,
          empty_slabs_total := c.empty_slabs_total - slab_size,
          inuse_slabs := [index] }
        let metadata := c.slab_info.getD index zero_metadata
        let slab := get_slab c slab_size index
        match get_free_slot c.rng slots metadata with
        | .error e => .error e
        | .ok (slot, rng') =>
          match set_slot metadata slot with
          | .error e => .error e
          | .ok metadata =>
            let c := { c with rng := rng', slab_info := c.slab_info.set index metadata }
            let p := slot_pointer size slab slot
            let effects := if requested_size ≠ 0 then
                [MemEffect.wafc_check p (size - canary_size), MemEffect.canary_write p size]
              else []
            .ok (some p, classes.set ci c, effects)
      | [] =>
        match c.free_slabs with
        | index :: rest =>
          -- pop from the free list (FIFO head), re-commit its pages
          let (cv, rng') := get_random_u64 c.rng
          let metadata := { (c.slab_info.getD index zero_metadata) with canary_value := cv }
          let c := { c with rng := rng', slab_info := c.slab_info.set index metadata }
          let slab := get_slab c slab_size index
          if requested_size ≠ 0 ∧ ¬ protect_slab_ok then
            .ok (none, classes.set ci c, [MemEffect.slab_protect_rw slab slab_size])
          else
            let c := { c with free_slabs := rest, inuse_slabs := [index] }
            match get_free_slot c.rng slots metadata with
            | .error e => .error e
            | .ok (slot, rng2) =>
              match set_slot metadata slot with
              | .error e => .error e
              | .ok metadata =>
                let c := { c with rng := rng2, slab_info := c.slab_info.set index metadata }
                let p := slot_pointer size slab slot
                let effects :=
                  (if requested_size ≠ 0 then [MemEffect.slab_protect_rw slab slab_size] else [])
                    ++ (if requested_size ≠ 0 then [MemEffect.canary_write p size] else [])
                .ok (some p, classes.set ci c, effects)
        | [] =>
          -- allocate a fresh metadata entry and slab
          match alloc_metadata c slab_size (requested_size ≠ 0)
              protect_meta_ok protect_slab_ok with
          | (none, c) => .ok (none, classes.set ci c, [])
          | (some index, c) =>
            let (cv, rng') := get_random_u64 c.rng
            let metadata :=
              { (c.slab_info.getD index zero_metadata) with canary_value := cv &&& canary_mask }
            let c := { c with
              rng := rng', inuse_slabs := [index],
              slab_info := c.slab_info.set index metadata }
            let slab := get_slab c slab_size index
            match get_free_slot c.rng slots metadata with
            | .error e => .error e
            | .ok (slot, rng2) =>
              match set_slot metadata slot with
              | .error e => .error e
              | .ok metadata =>
                let c := { c with rng := rng2, slab_info := c.slab_info.set index metadata }
                let p := slot_pointer size slab slot
                let effects :=
                  if requested_size ≠ 0 then [MemEffect.canary_write p size] else []
                .ok (some p, classes.set ci c, effects)
    | index :: rest =>
      -- a partial slab exists
      let metadata := c.slab_info.getD index zero_metadata
      match get_free_slot c.rng slots metadata with
      | .error e => .error e
      | .ok (slot, rng') =>
        match set_slot metadata slot with
        | .error e => .error e
        | .ok metadata =>
          let c := { c with rng := rng', slab_info := c.slab_info.set index metadata }
          -- if the slab is now full, pop it from the partial list
          let c := if ¬ has_free_slots slots metadata then { c with inuse_slabs := rest } else c
          let slab := get_slab c slab_size index
          let p := slot_pointer size slab slot
          let effects := if requested_size ≠ 0 then
              [MemEffect.wafc_check p (size - canary_size), MemEffect.canary_write p size]
            else []
          .ok (some p, classes.set ci c, effects)

/-- slab_size_class: derive the class from the pointer's stripe. -/
def slab_size_class (slab_region_start p : Nat) : Nat :=
  (p - slab_region_start) / real_class_region_size

def slab_usable_size (slab_region_start p : Nat) : Nat :=
  size_classes.getD (slab_size_class slab_region_start p) 0

/-- enqueue_free_slab: FIFO tail enqueue. -/
def enqueue_free_slab (c : size_class) (index : Nat) : size_class :=
  { c with free_slabs := c.free_slabs ++ [index] }

/-- deallocate_small.  `mem_canary` is the 64-bit value read back from the
freed slot's canary location (`memcpy(&canary_value, p + size - canary_size,
canary_size)`); `map_fixed_ok` is the outcome of the `memory_map_fixed` call
that purges an empty slab. -/
def deallocate_small (slab_region_start : Nat) (classes : List size_class) (p : Nat)
    (expected_size : Option Nat) (mem_canary : Nat) (map_fixed_ok : Bool) :
    Except String (List size_class × List MemEffect) :=
  let ci := slab_size_class slab_region_start p
  let c := classes.getD ci default_class
  let size0 := size_classes.getD ci 0
  if match expected_size with | some es => size0 != es | none => false then
    .error "sized deallocation mismatch"
  else
    let is_zero_size := size0 = 0
    let size := if is_zero_size then 16 else size0
    let slots := size_class_slots.getD ci 0
    let slab_size := get_slab_size slots size
    -- get_metadata: libdivide_u64_do((char *)p - (char *)class_region_start)
    let offset := sub64 p c.class_region_start
    let index := offset / slab_size
    if index ≥ c.metadata_allocated then .error "invalid free within a slab yet to be used"
    else
      let metadata := c.slab_info.getD index zero_metadata
      let slab := get_slab c slab_size index
      let slot := (p - slab) / size  -- libdivide_u32_do
      if slot_pointer size slab slot ≠ p then .error "invalid unaligned free"
      else
        match get_slot metadata slot with
        | .error e => .error e
        | .ok bit =>
          if ¬ bit then .error "double free"
          else if ¬ is_zero_size ∧ canary_size ≠ 0 ∧ mem_canary ≠ metadata.canary_value then
            .error "canary corrupted"
          else
            let effects := if ¬ is_zero_size ∧ ZERO_ON_FREE then
                [MemEffect.zero_write p (size - canary_size)]
              else []
            -- if the slab was full, push it back onto the partial list
            let c := if ¬ has_free_slots slots metadata then
                { c with inuse_slabs := index :: c.inuse_slabs }
              else c
            match clear_slot metadata slot with
            | .error e => .error e
            | .ok metadata1 =>
              let c := { c with slab_info := c.slab_info.set index metadata1 }
              if is_free_slab metadata1 then
                -- unlink from the partial list (prev/next surgery)
                let c := { c with inuse_slabs := c.inuse_slabs.erase index }
                let c_empty := { c with
                  empty_slabs := index :: c.empty_slabs,
                  empty_slabs_total := c.empty_slabs_total + slab_size }
                if c.empty_slabs_total + slab_size > max_empty_slabs_total then
                  if map_fixed_ok then
                    .ok ((classes.set ci (enqueue_free_slab c index)),
                         effects ++ [MemEffect.slab_map_fixed slab slab_size])
                  else
                    -- handle out-of-memory by just putting it into the empty slabs list
                    .ok (classes.set ci c_empty,
                         effects ++ [MemEffect.slab_map_fixed slab slab_size])
                else
                  .ok (classes.set ci c_empty, effects)
              else .ok (classes.set ci c, effects)

/-! ### Dispatcher (public entry points) -/

/-- Outcomes of the external page-provider calls an operation may issue.
`pages` is the result of the (at most one) `allocate_pages` call. -/
structure OSCalls where
  pages : Option Nat
  protect_meta_ok : Bool
  protect_slab_ok : Bool
  protect_regions_ok : Bool
  map_fixed_ok : Bool
  remap_ok : Bool
deriving DecidableEq, Repr

/-- The process-wide allocator state: the read-only root (`ro`), the
per-class slab states, the region table, and the regions PRNG stream. -/
structure AllocatorState where
  slab_region_start : Nat
  slab_region_end : Nat
  classes : List size_class
  regions : RegionsState
  regions_rng : List Nat
  initialized : Bool
deriving DecidableEq, Repr

/-- init().  Initialization is lazy and idempotent; the model covers
already-initialized states (`initialized = true`), on which init_slow_path
returns immediately, so init is the identity there. -/
def init (st : AllocatorState) : AllocatorState := st

def get_guard_size (rng : List Nat) (size : Nat) : Nat × List Nat :=
  let (r, rng') := get_random_u64_uniform rng (size / PAGE_SIZE / 8)
  ((r + 1) * PAGE_SIZE, rng')

/-- allocate: route by size to the slab engine or the large path
(guarded pages + region-table insert). -/
def allocate (st : AllocatorState) (os : OSCalls) (size : Nat) :
    Except String (Option Nat × AllocatorState × List MemEffect) :=
  if size ≤ max_slab_size_class then
    match allocate_small st.classes size os.protect_meta_ok os.protect_slab_ok with
    | .error e => .error e
    | .ok (p, classes', effects) => .ok (p, { st with classes := classes' }, effects)
  else
    let (guard_size, rng') := get_guard_size st.regions_rng size
    let st := { st with regions_rng := rng' }
    match os.pages with
    | none => .ok (none, st, [])
    | some p =>
      match regions_insert st.regions os.protect_regions_ok p size guard_size with
      | none =>
        -- table full and growth failed: release the pages, fail
        .ok (none, st,
          [MemEffect.pages_alloc size guard_size, MemEffect.pages_free p size guard_size])
      | some rt =>
        .ok (some p, { st with regions := rt }, [MemEffect.pages_alloc size guard_size])

def adjust_size_for_canaries (size : Nat) : Nat :=
  if 0 < size ∧ size ≤ max_slab_size_class then size + canary_size else size

def h_malloc (st : AllocatorState) (os : OSCalls) (size : Nat) :
    Except String (Option Nat × AllocatorState × List MemEffect) :=
  let st := init st
  let size := adjust_size_for_canaries size
  allocate st os size

/-- deallocate_large: look up the pointer, delete the entry, release the
pages. -/
def deallocate_large (st : AllocatorState) (p : Nat) (expected_size : Option Nat) :
    Except String (AllocatorState × List MemEffect) :=
  if ¬ st.initialized then .error "invalid uninitialized allocator usage"
  else
    match regions_find st.regions p with
    | none => .error "invalid free"
    | some slot =>
      let region := st.regions.regions.getD slot emptyRI
      if match expected_size with | some es => region.size != es | none => false then
        .error "sized deallocation mismatch"
      else
        .ok ({ st with regions := regions_delete st.regions slot },
             [MemEffect.pages_free p region.size region.guard_size])

def h_free (st : AllocatorState) (p : Option Nat) (mem_canary : Nat) (map_fixed_ok : Bool) :
    Except String (AllocatorState × List MemEffect) :=
  match p with
  | none => .ok (st, [])
  | some p =>
    if st.slab_region_start ≤ p ∧ p < st.slab_region_end then
      match deallocate_small st.slab_region_start st.classes p none mem_canary map_fixed_ok with
      | .error e => .error e
      | .ok (classes', effects) => .ok ({ st with classes := classes' }, effects)
    else deallocate_large st p none

def h_malloc_usable_size (st : AllocatorState) (p : Option Nat) : Except String Nat :=
  match p with
  | none => .ok 0
  | some p =>
    if st.slab_region_start ≤ p ∧ p < st.slab_region_end then
      let size := slab_usable_size st.slab_region_start p
      .ok (if size ≠ 0 then size - canary_size else 0)
    else if ¬ st.initialized then .error "invalid uninitialized allocator usage"
    else
      match regions_find st.regions p with
      | none =>
        -- C checks `p == NULL` here instead of `region == NULL` and would
        -- dereference a null region (see the spec's open question)
        .error "undefined behavior: null region dereference"
      | some slot => .ok (st.regions.regions.getD slot emptyRI).size

def mremap_threshold : Nat := 4 * 1024 * 1024

/-- The shared tail of h_realloc: allocate fresh, copy
`min(size, old_size)` (minus the canary for small new sizes), free the old
allocation through the matching engine. -/
def h_realloc_move (st : AllocatorState) (os : OSCalls)
    (old size old_size mem_canary : Nat) :
    Except String (Option Nat × AllocatorState × List MemEffect) :=
  match allocate st os size with
  | .error e => .error e
  | .ok (none, st', effs) => .ok (none, st', effs)
  | .ok (some new, st', effs) =>
    let copy_size := if size < old_size then size else old_size
    let copy_size := if 0 < size ∧ size ≤ max_slab_size_class then copy_size - canary_size
      else copy_size
    if old_size ≤ max_slab_size_class then
      match deallocate_small st'.slab_region_start st'.classes old none
          mem_canary os.map_fixed_ok with
      | .error e => .error e
      | .ok (classes', effs2) =>
        .ok (some new, { st' with classes := classes' },
             effs ++ [MemEffect.mem_copy new old copy_size] ++ effs2)
    else
      match deallocate_large st' old none with
      | .error e => .error e
      | .ok (st'', effs2) =>
        .ok (some new, st'', effs ++ [MemEffect.mem_copy new old copy_size] ++ effs2)

/-- Update the size of the region entry at `slot`. -/
def set_region_size (rt : RegionsState) (slot newsize : Nat) : RegionsState :=
  { rt with regions := rt.regions.set slot { (rt.regions.getD slot emptyRI) with size := newsize } }

def h_realloc (st : AllocatorState) (os : OSCalls) (old : Option Nat) (size0 : Nat)
    (mem_canary : Nat) :
    Except String (Option Nat × AllocatorState × List MemEffect) :=
  match old with
  | none =>
    let st := init st
    let size := adjust_size_for_canaries size0
    allocate st os size
  | some old =>
    let size := adjust_size_for_canaries size0
    if st.slab_region_start ≤ old ∧ old < st.slab_region_end then
      let old_size := slab_usable_size st.slab_region_start old
      if size ≤ max_slab_size_class ∧
          (get_size_info size).map size_info.size = some old_size then
        .ok (some old, st, [])
      else h_realloc_move st os old size old_size mem_canary
    else if ¬ st.initialized then .error "invalid uninitialized allocator usage"
    else
      match regions_find st.regions old with
      | none => .error "invalid realloc"
      | some slot =>
        let region := st.regions.regions.getD slot emptyRI
        let old_size := region.size
        let old_guard_size := region.guard_size
        if PAGE_CEILING old_size = PAGE_CEILING size then
          .ok (some old, { st with regions := set_region_size st.regions slot size }, [])
        else if size < old_size ∧ size > max_slab_size_class then
          -- in-place shrink
          let rounded_size := PAGE_CEILING size
          let old_rounded_size := PAGE_CEILING old_size
          let new_end := old + rounded_size
          if ¬ os.map_fixed_ok then .ok (none, st, [])
          else
            let new_guard_end := new_end + old_guard_size
            -- the table is unchanged between the two lookups (regions_lock)
            .ok (some old, { st with regions := set_region_size st.regions slot size },
                 [MemEffect.slab_map_fixed new_end old_guard_size,
                  MemEffect.mem_unmap new_guard_end (old_rounded_size - rounded_size)])
        else if mremap_threshold ≤ (if size < old_size then size else old_size) then
          match allocate st os size with
          | .error e => .error e
          | .ok (none, st', effs) => .ok (none, st', effs)
          | .ok (some new, st', effs) =>
            match regions_find st'.regions old with
            | none => .error "invalid realloc"
            | some slot' =>
              let st'' := { st' with regions := regions_delete st'.regions slot' }
              let copy_size := if size < old_size then size else old_size
              if ¬ os.remap_ok then
                -- memory_remap_fixed failed: copy and release
                .ok (some new, st'',
                     effs ++ [MemEffect.mem_copy new old copy_size,
                              MemEffect.pages_free old old_size old_guard_size])
              else
                .ok (some new, st'',
                     effs ++ [MemEffect.mem_unmap (old - old_guard_size) old_guard_size,
                              MemEffect.mem_unmap (old + PAGE_CEILING old_size) old_guard_size])
        else h_realloc_move st os old size old_size mem_canary

/-! ### Generic helper lemmas -/

theorem getD_set_self {α : Type} (l : List α) (i : Nat) (h : i < l.length) (a d : α) :
    (l.set i a).getD i d = a := by
  simp [List.getD, List.getElem?_set_self', h]

theorem getD_set_ne {α : Type} (l : List α) {i j : Nat} (h : i ≠ j) (a d : α) :
    (l.set i a).getD j d = l.getD j d := by
  simp [List.getD, List.getElem?_set_ne h]

/-- A `some` result of `get_size_info` reports exactly the table size of its
class: the rounded size determines the class and conversely. -/
theorem get_size_info_class_size (s : Nat) (info : size_info)
    (h : get_size_info s = some info) : info.size = size_classes.getD info.class_idx 0 := by
  unfold get_size_info at h
  split at h
  · cases h; rfl
  · split at h
    · cases h
      have hb : ∀ t, t < 129 → t ≠ 0 →
          (t + 15) / 16 * 16 = size_classes.getD ((t - 1) / 16 + 1) 0 := by decide
      exact hb s (by omega) (by assumption)
    · obtain ⟨c, _, heq⟩ := List.exists_of_findSome?_eq_some h
      dsimp only at heq
      split at heq
      · cases heq; rfl
      · cases heq

/-! ### Claim C8 -/

/-- C8: `free(NULL)` is a no-op that leaves the allocator state unchanged and
performs no memory effects; `malloc_usable_size(NULL)` returns 0; and for
every request size, `realloc(NULL, n)` performs exactly the body of
`malloc(n)` (init, canary size adjustment, allocate). -/
theorem C8_null_is_noop_and_realloc_null_is_malloc :
    (∀ (st : AllocatorState) (cm : Nat) (mf : Bool),
      h_free st none cm mf = .ok (st, [])) ∧
    (∀ st : AllocatorState, h_malloc_usable_size st none = .ok 0) ∧
    (∀ (st : AllocatorState) (os : OSCalls) (n cm : Nat),
      h_realloc st os none n cm = h_malloc st os n) :=
  ⟨fun _ _ _ => rfl, fun _ => rfl, fun _ _ _ _ => rfl⟩

/-! ### Claim C5 -/

/-- A size-class-2 state whose partial and empty lists are exhausted, whose
free-slab list holds slab 0, and whose next PRNG draw is
0x0123456789abcdef = 81985529216486895 (low byte 0xef). -/
def C5_class : size_class := {
  class_region_start := 1000000,
  slab_info := [zero_metadata],
  inuse_slabs := [], empty_slabs := [], empty_slabs_total := 0,
  free_slabs := [0],
  rng := [81985529216486895, 3],
  metadata_allocated := 1, metadata_count := 2 }

def C5_classes : List size_class := (List.replicate 37 default_class).set 2 C5_class

/-- C5 (code bug): on the allocate_small path that pops a slab from the free
list, the freshly drawn `canary_value` is `get_random_u64` without
`& canary_mask` (src/malloc.c line 318, unlike the fresh-slab path at line
352), so its low byte is whatever the PRNG drew: allocating 16 bytes from
`C5_classes` succeeds and stores a canary_value whose low byte is 0xef = 239,
not 0 as the claim requires.  (24 is the canary-adjusted size of a
`malloc(16)` request.) -/
theorem C5_freelist_reuse_canary_unmasked :
    (allocate_small C5_classes 24 true true).toOption.map
      (fun r => (r.1.isSome,
        ((r.2.1.getD 2 default_class).slab_info.getD 0 zero_metadata).canary_value % 256))
      = some (true, 239) ∧ (239 : Nat) ≠ 0 := by
  exact ⟨by decide, by decide⟩

/-! ### Claim C7 -/

/-- C7: for a small (slab-region) pointer `old`, if the canary-adjusted new
request classifies to the same size class as `old`'s stripe class, then
`realloc(old, n)` returns `old` with no state change and no memory
effects. -/
theorem C7_realloc_same_class_returns_old
    (st : AllocatorState) (os : OSCalls) (old n cm : Nat) (info : size_info)
    (h1 : st.slab_region_start ≤ old) (h2 : old < st.slab_region_end)
    (hinfo : get_size_info (adjust_size_for_canaries n) = some info)
    (hcls : info.class_idx = slab_size_class st.slab_region_start old)
    (hle : adjust_size_for_canaries n ≤ max_slab_size_class) :
    h_realloc st os (some old) n cm = .ok (some old, st, []) := by
  have hsz := get_size_info_class_size _ _ hinfo
  show (if st.slab_region_start ≤ old ∧ old < st.slab_region_end then _ else _) = _
  rw [if_pos ⟨h1, h2⟩]
  rw [if_pos]
  refine ⟨hle, ?_⟩
  rw [hinfo]
  simp only [Option.map_some']
  rw [hsz, hcls]
  rfl

def OS_ok : OSCalls :=
  { pages := none, protect_meta_ok := true, protect_slab_ok := true,
    protect_regions_ok := true, map_fixed_ok := true, remap_ok := true }

def C7_st : AllocatorState :=
  { slab_region_start := 1048576, slab_region_end := 1048576 + slab_region_size,
    classes := List.replicate 37 default_class, regions := init_regions,
    regions_rng := [0], initialized := true }

/-- the address of a class-2 (size 32) slot inside the slab region of C7_st -/
def C7_old : Nat := 1048576 + 2 * real_class_region_size + 4096 + 96

theorem C7_realloc_same_class_returns_old_witness :
    h_realloc C7_st OS_ok (some C7_old) 16 0 = .ok (some C7_old, C7_st, []) :=
  C7_realloc_same_class_returns_old C7_st OS_ok C7_old 16 0 ⟨32, 2⟩
    (by decide) (by decide) (by decide) (by decide) (by decide)

/-! ### Region-table probe lemmas -/

theorem dec_index_lt (total i : Nat) (h : 0 < total) : dec_index total i < total :=
  Nat.mod_lt _ h

theorem probe_empty_some {regions : List region_info} {total : Nat} (h0 : 0 < total) :
    ∀ (fuel index i : Nat), index < total →
      probe_empty regions total index fuel = some i →
      i < total ∧ (regions.getD i emptyRI).p = 0 := by
  intro fuel
  induction fuel with
  | zero => intro index i _ hp; simp [probe_empty] at hp
  | succ m ih =>
    intro index i hidx hp
    unfold probe_empty at hp
    split at hp
    · cases hp; exact ⟨hidx, by assumption⟩
    · exact ih _ _ (dec_index_lt _ _ h0) hp

theorem foldl_rehash_none (newtotal : Nat) (l : List region_info) :
    l.foldl (rehash_step newtotal) none = none := by
  induction l with
  | nil => rfl
  | cons hd tl ih => simpa [List.foldl, rehash_step] using ih

theorem place_entry_length {t t' : List region_info} {newtotal : Nat} {cell : region_info}
    (h : place_entry t newtotal cell = some t') : t'.length = t.length := by
  unfold place_entry at h
  split at h
  · cases h
  · cases h; exact List.length_set t _ _

theorem foldl_rehash_length (newtotal : Nat) (l : List region_info) :
    ∀ (t t' : List region_info), t.length = newtotal →
      l.foldl (rehash_step newtotal) (some t) = some t' → t'.length = newtotal := by
  induction l with
  | nil => intro t t' ht h; cases h; exact ht
  | cons hd tl ih =>
    intro t t' ht h
    rw [List.foldl_cons] at h
    by_cases hp : hd.p ≠ 0
    · rw [show rehash_step newtotal (some t) hd = place_entry t newtotal hd by
        simp [rehash_step, hp]] at h
      match hpe : place_entry t newtotal hd with
      | none => rw [hpe, foldl_rehash_none] at h; cases h
      | some t2 =>
        rw [hpe] at h
        exact ih t2 t' (by rw [place_entry_length hpe, ht]) h
    · rw [show rehash_step newtotal (some t) hd = some t by simp [rehash_step, hp]] at h
      exact ih t t' ht h

theorem regions_grow_shape {s : RegionsState} {ok : Bool} {s1 : RegionsState}
    (h : regions_grow s ok = some s1) :
    s1.regions_total = 2 * s.regions_total ∧ s1.regions.length = s1.regions_total ∧
      s1.regions_free = s.regions_free + s.regions_total := by
  unfold regions_grow at h
  by_cases h1 : s.regions_total > (2 ^ 64 - 1) / 24 / 2
  · rw [if_pos h1] at h; cases h
  · rw [if_neg h1] at h
    dsimp only at h
    by_cases h2 : s.regions_total * 2 > max_region_table_size
    · rw [if_pos h2] at h; cases h
    · rw [if_neg h2] at h
      by_cases h3 : ok = true
      · rw [if_neg (by simp [h3])] at h
        rcases hfold : s.regions.foldl (rehash_step (s.regions_total * 2))
            (some (List.replicate (s.regions_total * 2) emptyRI)) with _ | t
        · rw [hfold] at h; cases h
        · rw [hfold] at h
          cases h
          refine ⟨Nat.mul_comm s.regions_total 2, ?_, rfl⟩
          have := foldl_rehash_length (s.regions_total * 2) s.regions
            (List.replicate (s.regions_total * 2) emptyRI) t (by simp) hfold
          simpa [Nat.two_mul, Nat.mul_comm] using this
      · rw [if_pos (by simp [h3])] at h; cases h

/-- Bool membership check for a key of the region table. -/
def rt_contains (rt : RegionsState) (p : Nat) : Bool := rt.regions.any (fun c => c.p == p)

theorem rt_contains_of_getD {rt : RegionsState} {i p : Nat}
    (hi : i < rt.regions.length) (hp : (rt.regions.getD i emptyRI).p = p) :
    rt_contains rt p = true := by
  unfold rt_contains
  rw [List.any_eq_true]
  rw [List.getD_eq_getElem _ _ hi] at hp
  exact ⟨rt.regions[i], List.getElem_mem hi, by simp [hp]⟩

/-- A successful regions_insert stores the key at the probed slot. -/
theorem regions_insert_contains {s : RegionsState} {ok : Bool} {p sz g : Nat}
    {s' : RegionsState}
    (hins : regions_insert s ok p sz g = some s')
    (hlen : s.regions.length = s.regions_total) (h0 : 0 < s.regions_total) :
    rt_contains s' p = true := by
  unfold regions_insert at hins
  rcases hg : (if s.regions_free * 4 < s.regions_total then regions_grow s ok else some s)
    with _ | s1
  · rw [hg] at hins; cases hins
  · have hs1 : s1.regions.length = s1.regions_total ∧ 0 < s1.regions_total := by
      by_cases hcond : s.regions_free * 4 < s.regions_total
      · rw [if_pos hcond] at hg
        obtain ⟨ht, hl, -⟩ := regions_grow_shape hg
        exact ⟨hl, by omega⟩
      · rw [if_neg hcond] at hg; cases hg; exact ⟨hlen, h0⟩
    rw [hg] at hins
    dsimp only at hins
    rcases hprobe : probe_empty s1.regions s1.regions_total
        (hash_page p % s1.regions_total) s1.regions_total with _ | index
    · rw [hprobe] at hins; cases hins
    · rw [hprobe] at hins
      have hlt := (probe_empty_some hs1.2 _ _ _
        (Nat.mod_lt _ hs1.2) hprobe).1
      cases hins
      exact rt_contains_of_getD (i := index)
        (by rw [List.length_set]; omega)
        (by rw [getD_set_self _ _ (by omega : index < s1.regions.length)])

/-! ### Claim C9 -/

/-- C9: with slab canaries enabled, a request in `(16384 - 8, 16384]` inflates
past the largest slab class, so a successful `h_malloc` serves it from the
large path: the slab engine's state is untouched and the returned pointer is
registered in the region table. -/
theorem C9_threshold_requests_take_large_path
    (st : AllocatorState) (os : OSCalls) (n p : Nat) (st' : AllocatorState)
    (effs : List MemEffect)
    (hlo : max_slab_size_class - canary_size < n) (hhi : n ≤ max_slab_size_class)
    (hlen : st.regions.regions.length = st.regions.regions_total)
    (h0 : 0 < st.regions.regions_total)
    (hrun : h_malloc st os n = .ok (some p, st', effs)) :
    st'.classes = st.classes ∧ rt_contains st'.regions p = true := by
  have hadj : adjust_size_for_canaries n = n + canary_size := by
    unfold adjust_size_for_canaries
    rw [if_pos ⟨by omega, hhi⟩]
  unfold h_malloc init at hrun
  rw [hadj] at hrun
  unfold allocate at hrun
  rw [if_neg (by unfold max_slab_size_class canary_size at *; omega)] at hrun
  dsimp only at hrun
  match hpg : os.pages with
  | none => rw [hpg] at hrun; cases hrun
  | some q =>
    rw [hpg] at hrun
    dsimp only at hrun
    split at hrun
    · cases hrun
    · rename_i rt hins
      cases hrun
      exact ⟨rfl, regions_insert_contains hins hlen h0⟩

def C9_st : AllocatorState :=
  { slab_region_start := 1048576, slab_region_end := 1048576 + slab_region_size,
    classes := List.replicate 37 default_class, regions := init_regions,
    regions_rng := [2], initialized := true }

def C9_os : OSCalls := { OS_ok with pages := some 500000 }

/-- the state produced by the concrete run of the witness -/
def C9_st' : AllocatorState :=
  match h_malloc C9_st C9_os 16380 with
  | .ok (_, st', _) => st'
  | .error _ => C9_st

def C9_effs : List MemEffect :=
  match h_malloc C9_st C9_os 16380 with
  | .ok (_, _, effs) => effs
  | .error _ => []

theorem C9_threshold_requests_take_large_path_witness :
    C9_st'.classes = C9_st.classes ∧ rt_contains C9_st'.regions 500000 = true :=
  C9_threshold_requests_take_large_path C9_st C9_os 16380 500000 C9_st' C9_effs
    (by decide) (by decide) (by decide) (by decide) (by rfl)

/-! ### Bitmap lemmas -/

theorem mask_div_mod (slot : Nat) (h : slot < 64) :
    (U64_MOD - 1 - 2 ^ slot) / 2 ^ slot % 2 = 0 := by
  have h1 : (2:Nat) ^ slot * 2 ^ (64 - slot) = 2 ^ 64 := by
    rw [← pow_add]; congr 1; omega
  have h2 : (1:Nat) ≤ 2 ^ slot := Nat.one_le_two_pow
  have h3 : (2:Nat) ^ (64 - slot) = 2 * 2 ^ (63 - slot) := by
    rw [← pow_succ']; congr 1; omega
  have h4 : (1:Nat) ≤ 2 ^ (63 - slot) := Nat.one_le_two_pow
  have hmul : (2:Nat) ^ slot * (2 ^ (64 - slot) - 2) = 2 ^ 64 - 2 ^ slot * 2 := by
    rw [Nat.mul_sub, h1]
  have h5 : (2:Nat) ^ slot * 2 ≤ 2 ^ 64 := by
    rw [← pow_succ]
    exact Nat.pow_le_pow_right (by omega) (by omega)
  have heq : U64_MOD - 1 - 2 ^ slot = 2 ^ slot * (2 ^ (64 - slot) - 2) + (2 ^ slot - 1) := by
    unfold U64_MOD
    rw [hmul]
    omega
  rw [heq, Nat.mul_add_div (by omega), Nat.div_eq_of_lt (by omega), Nat.add_zero]
  omega

/-- the clear_slot mask has a zero at its own slot -/
theorem mask_testBit_self (slot : Nat) (h : slot < 64) :
    (U64_MOD - 1 - 2 ^ slot).testBit slot = false := by
  rw [Nat.testBit_to_div_mod]
  simp [mask_div_mod slot h]

/-- after clearing a slot, reading it back gives 0 -/
theorem land_mask_shiftRight_mod (b slot : Nat) (h : slot < 64) :
    ((b &&& (U64_MOD - 1 - 2 ^ slot)) >>> slot) % 2 = 0 := by
  have ht : (b &&& (U64_MOD - 1 - 2 ^ slot)).testBit slot = false := by
    rw [Nat.testBit_land, mask_testBit_self slot h, Bool.and_false]
  rw [Nat.testBit_to_div_mod] at ht
  rw [Nat.shiftRight_eq_div_pow]
  simp only [decide_eq_false_iff_not] at ht
  omega

/-- after setting a slot, reading it back gives 1 -/
theorem lor_pow_shiftRight_mod (b slot : Nat) :
    ((b ||| 2 ^ slot) >>> slot) % 2 = 1 := by
  have ht : (b ||| 2 ^ slot).testBit slot = true := by
    rw [Nat.testBit_or, Nat.testBit_two_pow_self, Bool.or_true]
  rw [Nat.testBit_to_div_mod] at ht
  rw [Nat.shiftRight_eq_div_pow]
  simpa using ht

/-- a freshly set bit reads back 1: `(2^slot >> slot) % 2 = 1` -/
theorem pow_shiftRight_self_mod (slot : Nat) : ((2:Nat) ^ slot >>> slot) % 2 = 1 := by
  rw [Nat.shiftRight_eq_div_pow, Nat.div_self (Nat.pos_pow_of_pos slot (by omega))]

/-- clearing the only set bit empties the bitmap -/
theorem pow_land_mask_eq_zero (slot : Nat) (h : slot < 64) :
    2 ^ slot &&& (U64_MOD - 1 - 2 ^ slot) = 0 := by
  apply Nat.eq_of_testBit_eq
  intro i
  rw [Nat.testBit_land, Nat.testBit_two_pow, Nat.zero_testBit]
  by_cases hi : slot = i
  · subst hi; rw [mask_testBit_self slot h]; simp
  · simp [hi]

/-! ### Claim C4 -/

/-- C4: a free of a slab-region pointer whose derived slab index is at or
above the class's metadata high-water mark (`metadata_count`) aborts
fatally: either the `index >= metadata_allocated` check in get_metadata
fires, or the index lands on never-used (zero-filled) metadata whose
occupancy bit is clear, so the free dies on one of the
"invalid free within a slab yet to be used" / "invalid unaligned free" /
"invalid index" / "double free" fatal errors.  `hzero` is the system
invariant that metadata entries at or above `metadata_count` have never been
written (their backing pages are fresh zero pages). -/
theorem C4_high_water_index_fatal
    (srs : Nat) (classes : List size_class) (p cm : Nat) (mf : Bool)
    (hzero : ∀ i, (classes.getD (slab_size_class srs p) default_class).metadata_count ≤ i →
      (classes.getD (slab_size_class srs p) default_class).slab_info.getD i zero_metadata
        = zero_metadata)
    (hidx : (classes.getD (slab_size_class srs p) default_class).metadata_count ≤
      sub64 p (classes.getD (slab_size_class srs p) default_class).class_region_start /
        get_slab_size (size_class_slots.getD (slab_size_class srs p) 0)
          (if size_classes.getD (slab_size_class srs p) 0 = 0 then 16
           else size_classes.getD (slab_size_class srs p) 0)) :
    ∃ e, deallocate_small srs classes p none cm mf = .error e := by
  unfold deallocate_small
  set ci := slab_size_class srs p with hci
  set c := classes.getD ci default_class with hc
  set size0 := size_classes.getD ci 0 with hsize0
  set size := if size0 = 0 then 16 else size0 with hsize
  set slab_size := get_slab_size (size_class_slots.getD ci 0) size with hslab_size
  set index := sub64 p c.class_region_start / slab_size with hindex
  simp only [reduceCtorEq]
  rw [if_neg not_false]
  by_cases hge : index ≥ c.metadata_allocated
  · exact ⟨_, by rw [if_pos hge]⟩
  · rw [if_neg hge]
    have hmz : c.slab_info.getD index zero_metadata = zero_metadata := by
      apply hzero
      simpa [hsize, hsize0, hslab_size, hindex] using hidx
    rw [hmz]
    set slab := get_slab c slab_size index with hslab
    set slot := (p - slab) / size with hslot
    by_cases halign : slot_pointer size slab slot ≠ p
    · exact ⟨_, by rw [if_pos halign]⟩
    · rw [if_neg halign]
      by_cases hslot64 : slot ≥ 64
      · exact ⟨_, by unfold get_slot; rw [if_pos hslot64]⟩
      · refine ⟨"double free", ?_⟩
        unfold get_slot
        rw [if_neg hslot64]
        simp [zero_metadata, Nat.shiftRight_eq_div_pow]

def C4_class : size_class := {
  class_region_start := 1048576 + 2 * real_class_region_size + 4096,
  slab_info := [zero_metadata],
  inuse_slabs := [], empty_slabs := [], empty_slabs_total := 0, free_slabs := [],
  rng := [], metadata_allocated := 1, metadata_count := 0 }

def C4_classes : List size_class := (List.replicate 37 default_class).set 2 C4_class

theorem C4_high_water_index_fatal_witness :
    ∃ e, deallocate_small 1048576 C4_classes
      (1048576 + 2 * real_class_region_size + 4096) none 0 true = .error e :=
  C4_high_water_index_fatal 1048576 C4_classes
    (1048576 + 2 * real_class_region_size + 4096) 0 true
    (by intro i _; cases i <;> rfl) (by decide)

/-! ### Claim C6 -/

/-- If the derivation of deallocate_small reaches the occupancy-bit test
(the slab index passes the metadata bound, the pointer is slot-aligned, the
slot index passes check_index) and the bit is clear, the free dies with
exactly "double free".  The parameters `ci`, `c`, ... name the function's
locals via their defining equations. -/
theorem dealloc_bit_clear_double_free
    (srs : Nat) (classes : List size_class) (p cm : Nat) (mf : Bool)
    (ci : Nat) (c : size_class) (size0 size slab_size index slab slot : Nat)
    (metadata : slab_metadata)
    (hci : ci = slab_size_class srs p)
    (hc : c = classes.getD ci default_class)
    (hsize0 : size0 = size_classes.getD ci 0)
    (hsize : size = if size0 = 0 then 16 else size0)
    (hslab_size : slab_size = get_slab_size (size_class_slots.getD ci 0) size)
    (hindex : index = sub64 p c.class_region_start / slab_size)
    (hmeta : metadata = c.slab_info.getD index zero_metadata)
    (hslab : slab = get_slab c slab_size index)
    (hslot : slot = (p - slab) / size)
    (hidx : index < c.metadata_allocated)
    (halign : slot_pointer size slab slot = p)
    (hslot64 : slot < 64)
    (hbit : (metadata.bitmap >>> slot) % 2 = 0) :
    deallocate_small srs classes p none cm mf = .error "double free" := by
  subst hslot hslab hmeta hindex hslab_size hsize hsize0 hc hci
  unfold deallocate_small
  simp only [reduceCtorEq]
  rw [if_neg not_false]
  rw [if_neg (by omega)]
  rw [if_neg (fun hne => hne halign)]
  unfold get_slot
  rw [if_neg (by omega)]
  dsimp only
  rw [if_pos (show ¬ _ = true by rw [hbit]; decide)]

/-- A successful deallocate_small passed every fatal check: the derived index
is below the metadata bound, the pointer is slot-aligned, the slot index is
valid and its occupancy bit was set; and its only change to the class record
besides list surgery is clearing that bit (in particular
`class_region_start`, `metadata_allocated`, `metadata_count` are unchanged
and `slab_info` changes exactly at `index`). -/
theorem deallocate_small_ok_spec
    (srs : Nat) (classes : List size_class) (p cm : Nat) (mf : Bool)
    (classes' : List size_class) (effs : List MemEffect)
    (ci : Nat) (c : size_class) (size0 size slab_size index slab slot : Nat)
    (metadata : slab_metadata)
    (hci : ci = slab_size_class srs p)
    (hc : c = classes.getD ci default_class)
    (hsize0 : size0 = size_classes.getD ci 0)
    (hsize : size = if size0 = 0 then 16 else size0)
    (hslab_size : slab_size = get_slab_size (size_class_slots.getD ci 0) size)
    (hindex : index = sub64 p c.class_region_start / slab_size)
    (hmeta : metadata = c.slab_info.getD index zero_metadata)
    (hslab : slab = get_slab c slab_size index)
    (hslot : slot = (p - slab) / size)
    (h : deallocate_small srs classes p none cm mf = .ok (classes', effs)) :
    index < c.metadata_allocated ∧
    slot_pointer size slab slot = p ∧
    slot < 64 ∧
    (metadata.bitmap >>> slot) % 2 = 1 ∧
    ∃ c1 : size_class,
      classes' = classes.set ci c1 ∧
      c1.class_region_start = c.class_region_start ∧
      c1.metadata_allocated = c.metadata_allocated ∧
      c1.metadata_count = c.metadata_count ∧
      c1.slab_info = c.slab_info.set index
        { metadata with bitmap := metadata.bitmap &&& (U64_MOD - 1 - 2 ^ slot) } := by
  subst hslot hslab hmeta hindex hslab_size hsize hsize0 hc hci
  unfold deallocate_small at h
  simp only [reduceCtorEq] at h
  rw [if_neg not_false] at h
  set ci := slab_size_class srs p with hci
  set c := classes.getD ci default_class with hc
  set size0 := size_classes.getD ci 0 with hsize0
  set size := if size0 = 0 then 16 else size0 with hsize
  set slab_size := get_slab_size (size_class_slots.getD ci 0) size with hslab_size
  set index := sub64 p c.class_region_start / slab_size with hindex
  set metadata := c.slab_info.getD index zero_metadata with hmeta
  set slab := get_slab c slab_size index with hslab
  set slot := (p - slab) / size with hslot
  by_cases hge : index ≥ c.metadata_allocated
  · rw [if_pos hge] at h; cases h
  · rw [if_neg hge] at h
    by_cases halign : slot_pointer size slab slot ≠ p
    · rw [if_pos halign] at h; cases h
    · rw [if_neg halign] at h
      unfold get_slot at h
      by_cases hslot64 : slot ≥ 64
      · rw [if_pos hslot64] at h; cases h
      · rw [if_neg hslot64] at h
        dsimp only at h
        by_cases hbit : ((metadata.bitmap >>> slot) % 2 == 1) = true
        · rw [if_neg (by simp [hbit])] at h
          refine ⟨by omega, by simpa using halign, by omega, by simpa using hbit, ?_⟩
          -- navigate the canary check, list surgery and slab disposition
          split at h
          · cases h
          · unfold clear_slot at h
            rw [if_neg hslot64] at h
            dsimp only at h
            by_cases hfull : ¬ has_free_slots (size_class_slots.getD ci 0) metadata = true
            · rw [if_pos hfull] at h
              split at h
              · split at h
                · by_cases hmf : mf = true
                  · rw [if_pos hmf] at h
                    cases h
                    exact ⟨_, rfl, rfl, rfl, rfl, rfl⟩
                  · rw [if_neg hmf] at h
                    cases h
                    exact ⟨_, rfl, rfl, rfl, rfl, rfl⟩
                · cases h
                  exact ⟨_, rfl, rfl, rfl, rfl, rfl⟩
              · cases h
                exact ⟨_, rfl, rfl, rfl, rfl, rfl⟩
            · rw [if_neg hfull] at h
              split at h
              · split at h
                · by_cases hmf : mf = true
                  · rw [if_pos hmf] at h
                    cases h
                    exact ⟨_, rfl, rfl, rfl, rfl, rfl⟩
                  · rw [if_neg hmf] at h
                    cases h
                    exact ⟨_, rfl, rfl, rfl, rfl, rfl⟩
                · cases h
                  exact ⟨_, rfl, rfl, rfl, rfl, rfl⟩
              · cases h
                exact ⟨_, rfl, rfl, rfl, rfl, rfl⟩
        · rw [if_pos (by simpa using hbit)] at h; cases h

/-- C6: a free routed to deallocate_small whose derived occupancy bit is
already clear aborts with exactly the fatal diagnostic "double free"; in
particular freeing the same small allocation twice aborts: a first
successful free clears the bit, so a second free of the same pointer dies
with "double free".  (The named parameters `ci`, `c`, ..., `metadata` with
their defining equations spell out deallocate_small's pointer
derivation.) -/
theorem C6_double_free_fatal :
    (∀ (srs : Nat) (classes : List size_class) (p cm : Nat) (mf : Bool)
       (ci : Nat) (c : size_class) (size0 size slab_size index slab slot : Nat)
       (metadata : slab_metadata),
      ci = slab_size_class srs p →
      c = classes.getD ci default_class →
      size0 = size_classes.getD ci 0 →
      size = (if size0 = 0 then 16 else size0) →
      slab_size = get_slab_size (size_class_slots.getD ci 0) size →
      index = sub64 p c.class_region_start / slab_size →
      metadata = c.slab_info.getD index zero_metadata →
      slab = get_slab c slab_size index →
      slot = (p - slab) / size →
      index < c.metadata_allocated →
      slot_pointer size slab slot = p →
      slot < 64 →
      (metadata.bitmap >>> slot) % 2 = 0 →
      deallocate_small srs classes p none cm mf = .error "double free") ∧
    (∀ (srs : Nat) (classes classes' : List size_class) (p cm cm' : Nat) (mf mf' : Bool)
       (effs : List MemEffect),
      slab_size_class srs p < classes.length →
      (classes.getD (slab_size_class srs p) default_class).slab_info.length =
        (classes.getD (slab_size_class srs p) default_class).metadata_allocated →
      deallocate_small srs classes p none cm mf = .ok (classes', effs) →
      deallocate_small srs classes' p none cm' mf' = .error "double free") := by
  constructor
  · intro srs classes p cm mf ci c size0 size slab_size index slab slot metadata
      hci hc hsize0 hsize hslab_size hindex hmeta hslab hslot hidx halign hslot64 hbit
    exact dealloc_bit_clear_double_free srs classes p cm mf ci c size0 size slab_size
      index slab slot metadata hci hc hsize0 hsize hslab_size hindex hmeta hslab hslot
      hidx halign hslot64 hbit
  · intro srs classes classes' p cm cm' mf mf' effs hcilen hinfolen hok
    obtain ⟨hidx, halign, hslot64, hbitset, c1, hcls', hcrs, hma, hmc, hinfo⟩ :=
      deallocate_small_ok_spec srs classes p cm mf classes' effs
        (slab_size_class srs p) (classes.getD (slab_size_class srs p) default_class)
        _ _ _ _ _ _ _ rfl rfl rfl rfl rfl rfl rfl rfl rfl hok
    set ci := slab_size_class srs p with hci
    set c := classes.getD ci default_class with hc
    set size0 := size_classes.getD ci 0 with hsize0
    set size := (if size0 = 0 then 16 else size0) with hsize
    set slab_size := get_slab_size (size_class_slots.getD ci 0) size with hslab_size
    set index := sub64 p c.class_region_start / slab_size with hindex
    set metadata := c.slab_info.getD index zero_metadata with hmeta
    set slab := get_slab c slab_size index with hslab
    set slot := (p - slab) / size with hslot
    have hc' : classes'.getD ci default_class = c1 := by
      rw [hcls']; exact getD_set_self _ _ hcilen _ _
    have hinfolen' : index < c.slab_info.length := by rw [hinfolen]; exact hidx
    refine dealloc_bit_clear_double_free srs classes' p cm' mf' ci c1 size0 size slab_size
      index slab slot { metadata with bitmap := metadata.bitmap &&& (U64_MOD - 1 - 2 ^ slot) }
      hci hc'.symm hsize0 hsize hslab_size ?_ ?_ ?_ hslot ?_ halign hslot64 ?_
    · rw [hcrs]
    · rw [hinfo]; exact (getD_set_self _ _ hinfolen' _ _).symm
    · show slab = get_slab c1 slab_size index
      unfold get_slab
      rw [hcrs]
      exact hslab
    · rw [hma]; exact hidx
    · exact land_mask_shiftRight_mod _ _ (by omega)

/-- class-2 state with one slab whose slot 3 is the only live allocation
(canary_value 0, so an in-memory canary of 0 passes the check) -/
def C6_classes : List size_class :=
  (List.replicate 37 default_class).set 2 {
    class_region_start := 1048576 + 2 * real_class_region_size + 4096,
    slab_info := [⟨8, 0⟩],
    inuse_slabs := [0], empty_slabs := [], empty_slabs_total := 0, free_slabs := [],
    rng := [], metadata_allocated := 1, metadata_count := 2 }

def C6_p : Nat := 1048576 + 2 * real_class_region_size + 4096 + 96

def C6_classes' : List size_class :=
  match deallocate_small 1048576 C6_classes C6_p none 0 true with
  | .ok (cls, _) => cls
  | .error _ => C6_classes

def C6_effs : List MemEffect :=
  match deallocate_small 1048576 C6_classes C6_p none 0 true with
  | .ok (_, effs) => effs
  | .error _ => []

theorem C6_double_free_fatal_witness :
    deallocate_small 1048576 C6_classes' C6_p none 0 true = .error "double free" :=
  C6_double_free_fatal.2 1048576 C6_classes C6_classes' C6_p 0 0 true true C6_effs
    (by decide) (by decide) (by rfl)

/-! ### Claim C3 -/

/-- class-2 state (slab_size 4096) whose single live slot is about to be
freed while `empty_slabs_total = 63488`: `63488 + 4096 = 67584` exceeds the
code's 64 KiB budget but is far below the claim's 64 KiB × 1024. -/
def C3_classes : List size_class :=
  (List.replicate 37 default_class).set 2 {
    class_region_start := 1048576 + 2 * real_class_region_size + 4096,
    slab_info := [⟨8, 0⟩],
    inuse_slabs := [0], empty_slabs := [], empty_slabs_total := 63488, free_slabs := [],
    rng := [], metadata_allocated := 1, metadata_count := 2 }

def C3_p : Nat := 1048576 + 2 * real_class_region_size + 4096 + 96

/-- C3 counterexample: freeing the last live slot of this slab moves it to
the free list (map_fixed purge) although `empty_slabs_total + slab_size =
67584` does not exceed the claim's cache budget of 64 KiB × 1024 bytes, so
the claimed "exactly when empty_slabs_total + slab_size > 64 KiB × 1024"
boundary is wrong: the code's budget (max_empty_slabs_total) is 64 KiB. -/
theorem C3_budget_counterexample :
    (match deallocate_small 1048576 C3_classes C3_p none 0 true with
     | .ok (cls, _) => some ((cls.getD 2 default_class).free_slabs,
                             (cls.getD 2 default_class).empty_slabs)
     | .error _ => none) = some ([0], []) ∧
    63488 + 4096 ≤ 64 * 1024 * 1024 ∧ max_empty_slabs_total = 64 * 1024 :=
  ⟨by decide, by decide, by decide⟩

/-- C3 (amended): when clearing the last set bit makes the slab empty, it is
unlinked from the partial list; it is purged (map_fixed) and enqueued FIFO
on the free list exactly when `empty_slabs_total + slab_size` exceeds the
cache budget `max_empty_slabs_total = 64 KiB` (65536 bytes) and the
map_fixed call succeeds; otherwise (within budget, or map_fixed failed) it
is pushed LIFO onto the empty list. -/
theorem C3_empty_slab_disposition
    (srs : Nat) (classes : List size_class) (p cm : Nat) (mf : Bool)
    (ci : Nat) (c : size_class) (size0 size slab_size index slab slot : Nat)
    (metadata : slab_metadata)
    (hci : ci = slab_size_class srs p)
    (hc : c = classes.getD ci default_class)
    (hsize0 : size0 = size_classes.getD ci 0)
    (hsize : size = (if size0 = 0 then 16 else size0))
    (hslab_size : slab_size = get_slab_size (size_class_slots.getD ci 0) size)
    (hindex : index = sub64 p c.class_region_start / slab_size)
    (hmeta : metadata = c.slab_info.getD index zero_metadata)
    (hslab : slab = get_slab c slab_size index)
    (hslot : slot = (p - slab) / size)
    (hcilen : ci < classes.length)
    (hidx : index < c.metadata_allocated)
    (halign : slot_pointer size slab slot = p)
    (hslot64 : slot < 64)
    (hbitmap : metadata.bitmap = 2 ^ slot)
    (hnotfull : has_free_slots (size_class_slots.getD ci 0) metadata = true)
    (hcanary : size0 = 0 ∨ cm = metadata.canary_value) :
    ∃ (cls' : List size_class) (effs : List MemEffect),
      deallocate_small srs classes p none cm mf = .ok (cls', effs) ∧
      (cls'.getD ci default_class).inuse_slabs = c.inuse_slabs.erase index ∧
      ((c.empty_slabs_total + slab_size > max_empty_slabs_total ∧ mf = true) →
        (cls'.getD ci default_class).free_slabs = c.free_slabs ++ [index] ∧
        (cls'.getD ci default_class).empty_slabs = c.empty_slabs ∧
        (cls'.getD ci default_class).empty_slabs_total = c.empty_slabs_total ∧
        MemEffect.slab_map_fixed slab slab_size ∈ effs) ∧
      (¬ (c.empty_slabs_total + slab_size > max_empty_slabs_total ∧ mf = true) →
        (cls'.getD ci default_class).free_slabs = c.free_slabs ∧
        (cls'.getD ci default_class).empty_slabs = index :: c.empty_slabs ∧
        (cls'.getD ci default_class).empty_slabs_total
          = c.empty_slabs_total + slab_size) := by
  subst hslot hslab hmeta hindex hslab_size hsize hsize0 hc hci
  unfold deallocate_small
  simp only [reduceCtorEq]
  rw [if_neg not_false]
  set ci := slab_size_class srs p with hci
  set c := classes.getD ci default_class with hc
  set size0 := size_classes.getD ci 0 with hsize0
  set size := (if size0 = 0 then 16 else size0) with hsize
  set slab_size := get_slab_size (size_class_slots.getD ci 0) size with hslab_size
  set index := sub64 p c.class_region_start / slab_size with hindex
  set metadata := c.slab_info.getD index zero_metadata with hmeta
  set slab := get_slab c slab_size index with hslab
  set slot := (p - slab) / size with hslot
  rw [if_neg (by omega)]
  rw [if_neg (fun hne => hne halign)]
  unfold get_slot
  rw [if_neg (by omega)]
  dsimp only
  have hbt : ((metadata.bitmap >>> slot) % 2 == 1) = true := by
    rw [hbitmap, pow_shiftRight_self_mod]
    rfl
  rw [if_neg (not_not_intro hbt)]
  rw [if_neg (show ¬ (¬ size0 = 0 ∧ canary_size ≠ 0 ∧ cm ≠ metadata.canary_value) by
    rintro ⟨hnz, -, hcm⟩
    rcases hcanary with h0 | hcm'
    · exact hnz h0
    · exact hcm hcm')]
  unfold clear_slot
  rw [if_neg (by omega)]
  dsimp only
  rw [if_neg (not_not_intro hnotfull)]
  have hfree : is_free_slab { metadata with
      bitmap := metadata.bitmap &&& (U64_MOD - 1 - 2 ^ slot) } = true := by
    unfold is_free_slab
    dsimp only
    rw [hbitmap, pow_land_mask_eq_zero _ hslot64]
    rfl
  rw [if_pos hfree]
  by_cases hbudget : c.empty_slabs_total + slab_size > max_empty_slabs_total
  · rw [if_pos hbudget]
    by_cases hmf : mf = true
    · rw [if_pos hmf]
      refine ⟨_, _, rfl, ?_, ?_, ?_⟩
      · rw [getD_set_self _ _ hcilen]
        dsimp only [enqueue_free_slab]
      · intro
        rw [getD_set_self _ _ hcilen]
        refine ⟨rfl, rfl, rfl, by simp⟩
      · intro hcon
        exact absurd ⟨hbudget, hmf⟩ hcon
    · rw [if_neg hmf]
      refine ⟨_, _, rfl, ?_, ?_, ?_⟩
      · rw [getD_set_self _ _ hcilen]
      · rintro ⟨-, hmf'⟩
        exact absurd hmf' hmf
      · intro
        rw [getD_set_self _ _ hcilen]
        exact ⟨rfl, rfl, rfl⟩
  · rw [if_neg hbudget]
    refine ⟨_, _, rfl, ?_, ?_, ?_⟩
    · rw [getD_set_self _ _ hcilen]
    · rintro ⟨hb, -⟩
      exact absurd hb hbudget
    · intro
      rw [getD_set_self _ _ hcilen]
      exact ⟨rfl, rfl, rfl⟩

theorem C3_empty_slab_disposition_witness :
    ∃ (cls' : List size_class) (effs : List MemEffect),
      deallocate_small 1048576 C3_classes C3_p none 0 true = .ok (cls', effs) ∧
      (cls'.getD 2 default_class).inuse_slabs = List.erase [0] 0 ∧
      ((63488 + 4096 > max_empty_slabs_total ∧ true = true) →
        (cls'.getD 2 default_class).free_slabs = [] ++ [0] ∧
        (cls'.getD 2 default_class).empty_slabs = [] ∧
        (cls'.getD 2 default_class).empty_slabs_total = 63488 ∧
        MemEffect.slab_map_fixed (1048576 + 2 * real_class_region_size + 4096) 4096 ∈ effs) ∧
      (¬ (63488 + 4096 > max_empty_slabs_total ∧ true = true) →
        (cls'.getD 2 default_class).free_slabs = [] ∧
        (cls'.getD 2 default_class).empty_slabs = 0 :: [] ∧
        (cls'.getD 2 default_class).empty_slabs_total = 63488 + 4096) :=
  C3_empty_slab_disposition 1048576 C3_classes C3_p 0 true 2
    (C3_classes.getD 2 default_class) 32 32 4096 0
    (1048576 + 2 * real_class_region_size + 4096) 3 ⟨8, 0⟩
    (by decide) rfl (by decide) (by decide) (by decide) (by decide) (by decide)
    (by decide) (by decide) (by decide) (by decide) (by decide) (by decide)
    (by decide) (by decide) (Or.inr (by decide))

/-- Specification of a successful `allocate_small(0)` (the sentinel class-0
path): a slot of spacing 16 is reserved in class 0, its occupancy bit is set,
no memory effect (no canary write, no write-after-free check) is performed,
and the class-0 bookkeeping fields are preserved.  The hypotheses are the
class-0 state invariants (metadata array has room, lists hold valid
indices). -/
theorem allocate_small_zero_spec
    (classes : List size_class) (pm ps : Bool) (p : Nat) (classes' : List size_class)
    (effs : List MemEffect)
    (hcount : (classes.getD 0 default_class).metadata_count
      < (classes.getD 0 default_class).metadata_allocated)
    (hlen : (classes.getD 0 default_class).slab_info.length
      = (classes.getD 0 default_class).metadata_allocated)
    (hlists : ∀ i, (i ∈ (classes.getD 0 default_class).inuse_slabs ∨
        i ∈ (classes.getD 0 default_class).empty_slabs ∨
        i ∈ (classes.getD 0 default_class).free_slabs) →
      i < (classes.getD 0 default_class).metadata_allocated)
    (h : allocate_small classes 0 pm ps = .ok (some p, classes', effs)) :
    ∃ (index slot : Nat) (c1 : size_class),
      slot < 64 ∧
      classes' = classes.set 0 c1 ∧
      c1.class_region_start = (classes.getD 0 default_class).class_region_start ∧
      c1.metadata_allocated = (classes.getD 0 default_class).metadata_allocated ∧
      c1.slab_info.length = (classes.getD 0 default_class).slab_info.length ∧
      index < (classes.getD 0 default_class).metadata_allocated ∧
      p = c1.class_region_start + index * 4096 + slot * 16 ∧
      (((c1.slab_info.getD index zero_metadata).bitmap >>> slot) % 2 = 1) ∧
      effs = [] := by
  unfold allocate_small at h
  rw [show get_size_info 0 = some ⟨0, 0⟩ from rfl] at h
  try dsimp only at h
  simp only [show (if (0:Nat) ≠ 0 then (0:Nat) else 16) = 16 from rfl,
    show size_class_slots.getD 0 0 = 256 from rfl,
    show get_slab_size 256 16 = 4096 from rfl] at h
  have hidxlen : ∀ i, i < (classes.getD 0 default_class).metadata_allocated →
      i < (classes.getD 0 default_class).slab_info.length := fun i hi => by omega
  rcases hsh : (classes.getD 0 default_class).inuse_slabs with _ | ⟨pindex, prest⟩
  · rw [hsh] at h
    try dsimp only at h
    rcases hse : (classes.getD 0 default_class).empty_slabs with _ | ⟨eindex, erest⟩
    · rw [hse] at h
      try dsimp only at h
      rcases hsf : (classes.getD 0 default_class).free_slabs with _ | ⟨findex, frest⟩
      · -- fresh-slab path
        rw [hsf] at h
        try dsimp only at h
        unfold alloc_metadata at h
        rw [if_neg (by omega)] at h
        unfold alloc_metadata_commit at h
        rw [if_neg (by simp)] at h
        try dsimp only at h
        split at h
        · cases h
        · rename_i slot rng2 hfs
          split at h
          · cases h
          · rename_i metadata hset
            unfold set_slot at hset
            by_cases h64 : slot ≥ 64
            · rw [if_pos h64] at hset; cases hset
            · rw [if_neg h64] at hset
              try dsimp only at hset
              injection hset with hset
              cases h
              refine ⟨(classes.getD 0 default_class).metadata_count, slot, _, by omega,
                rfl, rfl, rfl, by simp, hcount, rfl, ?_, rfl⟩
              rw [getD_set_self _ _ (by
                rw [List.length_set]
                exact hidxlen _ hcount)]
              rw [← hset]
              exact lor_pow_shiftRight_mod _ _
      · -- free-slab reuse path
        rw [hsf] at h
        try dsimp only at h
        rw [if_neg (by simp)] at h
        try dsimp only at h
        split at h
        · cases h
        · rename_i slot rng2 hfs
          split at h
          · cases h
          · rename_i metadata hset
            unfold set_slot at hset
            by_cases h64 : slot ≥ 64
            · rw [if_pos h64] at hset; cases hset
            · rw [if_neg h64] at hset
              try dsimp only at hset
              injection hset with hset
              cases h
              have hfi : findex < (classes.getD 0 default_class).metadata_allocated :=
                hlists findex (by rw [hsf]; simp)
              refine ⟨findex, slot, _, by omega, rfl, rfl, rfl, by simp, hfi, rfl, ?_, rfl⟩
              rw [getD_set_self _ _ (by
                rw [List.length_set]
                exact hidxlen _ hfi)]
              rw [← hset]
              exact lor_pow_shiftRight_mod _ _
    · -- empty-slab reuse path
      rw [hse] at h
      try dsimp only at h
      split at h
      · cases h
      · rename_i slot rng' hfs
        split at h
        · cases h
        · rename_i metadata hset
          unfold set_slot at hset
          by_cases h64 : slot ≥ 64
          · rw [if_pos h64] at hset; cases hset
          · rw [if_neg h64] at hset
            try dsimp only at hset
            injection hset with hset
            cases h
            have hei : eindex < (classes.getD 0 default_class).metadata_allocated :=
              hlists eindex (by rw [hse]; simp)
            refine ⟨eindex, slot, _, by omega, rfl, rfl, rfl, by simp, hei, rfl, ?_, rfl⟩
            rw [getD_set_self _ _ (hidxlen _ hei)]
            rw [← hset]
            exact lor_pow_shiftRight_mod _ _
  · -- partial-slab path
    rw [hsh] at h
    try dsimp only at h
    split at h
    · cases h
    · rename_i slot rng' hfs
      split at h
      · cases h
      · rename_i metadata hset
        unfold set_slot at hset
        by_cases h64 : slot ≥ 64
        · rw [if_pos h64] at hset; cases hset
        · rw [if_neg h64] at hset
          try dsimp only at hset
          injection hset with hset
          cases h
          have hpi : pindex < (classes.getD 0 default_class).metadata_allocated :=
            hlists pindex (by rw [hsh]; simp)
          refine ⟨pindex, slot, _, by omega, rfl, ?_, ?_, ?_, hpi, ?_, ?_, rfl⟩
          · split <;> rfl
          · split <;> rfl
          · split <;> simp
          · split <;> rfl
          · have hgd : ∀ cc : size_class,
                cc.slab_info = (classes.getD 0 default_class).slab_info.set pindex metadata →
                ((cc.slab_info.getD pindex zero_metadata).bitmap >>> slot) % 2 = 1 := by
              intro cc hcc
              rw [hcc]
              rw [getD_set_self _ _ (hidxlen _ hpi)]
              rw [← hset]
              exact lor_pow_shiftRight_mod _ _
            split <;> exact hgd _ rfl

/-- sub64 is plain subtraction for in-range operands -/
theorem sub64_eq {a b : Nat} (hb : b ≤ a) (ha : a < U64_MOD) : sub64 a b = a - b := by
  have h2 : U64_MOD = 18446744073709551616 := rfl
  unfold sub64
  rw [h2] at ha ⊢
  omega

/-- Freeing a live slot of the zero-byte sentinel class succeeds, clears
exactly the slot's occupancy bit, and performs neither the zero-on-free
write nor the canary comparison (`is_zero_size` short-circuits both; the
in-memory canary argument `cm` is arbitrary). -/
theorem deallocate_small_zero_spec
    (srs : Nat) (classes : List size_class) (p cm : Nat) (mf : Bool)
    (ci : Nat) (c : size_class) (slab_size index slab slot : Nat)
    (metadata : slab_metadata)
    (hci : ci = slab_size_class srs p)
    (hc : c = classes.getD ci default_class)
    (hsize0 : size_classes.getD ci 0 = 0)
    (hslab_size : slab_size = get_slab_size (size_class_slots.getD ci 0) 16)
    (hindex : index = sub64 p c.class_region_start / slab_size)
    (hmeta : metadata = c.slab_info.getD index zero_metadata)
    (hslab : slab = get_slab c slab_size index)
    (hslot : slot = (p - slab) / 16)
    (hcilen : ci < classes.length)
    (hidx : index < c.metadata_allocated)
    (halign : slot_pointer 16 slab slot = p)
    (hslot64 : slot < 64)
    (hidxlen : index < c.slab_info.length)
    (hbit : (metadata.bitmap >>> slot) % 2 = 1) :
    ∃ (cls' : List size_class) (effs : List MemEffect),
      deallocate_small srs classes p none cm mf = .ok (cls', effs) ∧
      (∀ a b, MemEffect.zero_write a b ∉ effs) ∧
      (((cls'.getD ci default_class).slab_info.getD index zero_metadata).bitmap
        >>> slot) % 2 = 0 := by
  subst hslot hslab hmeta hindex hslab_size hc hci
  unfold deallocate_small
  simp only [reduceCtorEq]
  rw [if_neg not_false]
  set ci := slab_size_class srs p with hci
  set c := classes.getD ci default_class with hc
  rw [hsize0]
  rw [if_pos rfl]
  set slab_size := get_slab_size (size_class_slots.getD ci 0) 16 with hss
  set index := sub64 p c.class_region_start / slab_size with hix
  set metadata := c.slab_info.getD index zero_metadata with hmd
  set slab := get_slab c slab_size index with hsb
  set slot := (p - slab) / 16 with hst
  rw [if_neg (by omega)]
  rw [if_neg (fun hne => hne halign)]
  unfold get_slot
  rw [if_neg (by omega)]
  dsimp only
  rw [if_neg (not_not_intro (show _ = true by rw [hbit]; rfl))]
  rw [if_neg (by simp)]
  unfold clear_slot
  rw [if_neg (by omega)]
  dsimp only
  set m1 := { metadata with bitmap := metadata.bitmap &&& (U64_MOD - 1 - 2 ^ slot) } with hm1
  by_cases hfull : ¬ has_free_slots (size_class_slots.getD ci 0) metadata = true
  · rw [if_pos hfull]
    try dsimp only
    by_cases hempty : is_free_slab m1 = true
    · rw [if_pos hempty]
      try dsimp only
      by_cases hbudget : c.empty_slabs_total + get_slab_size (size_class_slots.getD ci 0) 16
          > max_empty_slabs_total
      · rw [if_pos hbudget]
        by_cases hmf : mf = true
        · rw [if_pos hmf]
          refine ⟨_, _, rfl, by intro a b; simp, ?_⟩
          rw [getD_set_self _ _ hcilen]
          try dsimp only [enqueue_free_slab]
          try dsimp only
          rw [getD_set_self _ _ hidxlen]
          exact land_mask_shiftRight_mod _ _ hslot64
        · rw [if_neg hmf]
          refine ⟨_, _, rfl, by intro a b; simp, ?_⟩
          rw [getD_set_self _ _ hcilen]
          try dsimp only [enqueue_free_slab]
          try dsimp only
          rw [getD_set_self _ _ hidxlen]
          exact land_mask_shiftRight_mod _ _ hslot64
      · rw [if_neg hbudget]
        refine ⟨_, _, rfl, by intro a b; simp, ?_⟩
        rw [getD_set_self _ _ hcilen]
        try dsimp only [enqueue_free_slab]
        try dsimp only
        rw [getD_set_self _ _ hidxlen]
        exact land_mask_shiftRight_mod _ _ hslot64
    · rw [if_neg hempty]
      refine ⟨_, _, rfl, by intro a b; simp, ?_⟩
      rw [getD_set_self _ _ hcilen]
      try dsimp only [enqueue_free_slab]
      try dsimp only
      rw [getD_set_self _ _ hidxlen]
      exact land_mask_shiftRight_mod _ _ hslot64
  · rw [if_neg hfull]
    try dsimp only
    by_cases hempty : is_free_slab m1 = true
    · rw [if_pos hempty]
      try dsimp only
      by_cases hbudget : c.empty_slabs_total + get_slab_size (size_class_slots.getD ci 0) 16
          > max_empty_slabs_total
      · rw [if_pos hbudget]
        by_cases hmf : mf = true
        · rw [if_pos hmf]
          refine ⟨_, _, rfl, by intro a b; simp, ?_⟩
          rw [getD_set_self _ _ hcilen]
          try dsimp only [enqueue_free_slab]
          try dsimp only
          rw [getD_set_self _ _ hidxlen]
          exact land_mask_shiftRight_mod _ _ hslot64
        · rw [if_neg hmf]
          refine ⟨_, _, rfl, by intro a b; simp, ?_⟩
          rw [getD_set_self _ _ hcilen]
          try dsimp only [enqueue_free_slab]
          try dsimp only
          rw [getD_set_self _ _ hidxlen]
          exact land_mask_shiftRight_mod _ _ hslot64
      · rw [if_neg hbudget]
        refine ⟨_, _, rfl, by intro a b; simp, ?_⟩
        rw [getD_set_self _ _ hcilen]
        try dsimp only [enqueue_free_slab]
        try dsimp only
        rw [getD_set_self _ _ hidxlen]
        exact land_mask_shiftRight_mod _ _ hslot64
    · rw [if_neg hempty]
      refine ⟨_, _, rfl, by intro a b; simp, ?_⟩
      rw [getD_set_self _ _ hcilen]
      try dsimp only [enqueue_free_slab]
      try dsimp only
      rw [getD_set_self _ _ hidxlen]
      exact land_mask_shiftRight_mod _ _ hslot64

/-- C10: a successful `h_malloc(0)` classifies to the sentinel class 0
(rounded size 0) and returns a non-null pointer to a spacing-16 slot of
class 0's stripe whose occupancy bit is set, with no memory effects (no
canary install, no write-after-free check); `h_malloc_usable_size` on that
pointer returns 0, and freeing it succeeds for an arbitrary in-memory
canary value (no canary comparison), performs no zero-on-free write, and
clears the occupancy bit.  The hypotheses are the initialized-state
invariants for class 0 (stripe layout from init_slow_path, metadata-array
bookkeeping, list validity). -/
theorem C10_malloc_zero_sentinel
    (st : AllocatorState) (os : OSCalls) (p : Nat) (st' : AllocatorState)
    (effs : List MemEffect) (cm : Nat) (mf : Bool)
    (hend : st.slab_region_end = st.slab_region_start + slab_region_size)
    (hu64 : st.slab_region_end < U64_MOD)
    (hlen37 : st.classes.length = N_SIZE_CLASSES)
    (hgap_lo : st.slab_region_start + PAGE_SIZE ≤
      (st.classes.getD 0 default_class).class_region_start)
    (hgap_hi : (st.classes.getD 0 default_class).class_region_start + class_region_size
      ≤ st.slab_region_start + real_class_region_size)
    (hcount : (st.classes.getD 0 default_class).metadata_count
      < (st.classes.getD 0 default_class).metadata_allocated)
    (hslen : (st.classes.getD 0 default_class).slab_info.length
      = (st.classes.getD 0 default_class).metadata_allocated)
    (hal25 : (st.classes.getD 0 default_class).metadata_allocated ≤ 2 ^ 25)
    (hlists : ∀ i, (i ∈ (st.classes.getD 0 default_class).inuse_slabs ∨
        i ∈ (st.classes.getD 0 default_class).empty_slabs ∨
        i ∈ (st.classes.getD 0 default_class).free_slabs) →
      i < (st.classes.getD 0 default_class).metadata_allocated)
    (hrun : h_malloc st os 0 = .ok (some p, st', effs)) :
    get_size_info 0 = some ⟨0, 0⟩ ∧
    p ≠ 0 ∧
    effs = [] ∧
    st.slab_region_start ≤ p ∧ p < st.slab_region_start + real_class_region_size ∧
    h_malloc_usable_size st' (some p) = .ok 0 ∧
    ∃ index slot : Nat, slot < 64 ∧
      p = (st'.classes.getD 0 default_class).class_region_start
        + index * 4096 + slot * 16 ∧
      (((st'.classes.getD 0 default_class).slab_info.getD index zero_metadata).bitmap
        >>> slot) % 2 = 1 ∧
      ∃ (st'' : AllocatorState) (effs2 : List MemEffect),
        h_free st' (some p) cm mf = .ok (st'', effs2) ∧
        (∀ a b, MemEffect.zero_write a b ∉ effs2) ∧
        (((st''.classes.getD 0 default_class).slab_info.getD index zero_metadata).bitmap
          >>> slot) % 2 = 0 := by
  unfold h_malloc init allocate at hrun
  rw [show adjust_size_for_canaries 0 = 0 from rfl] at hrun
  rw [if_pos (show (0:Nat) ≤ max_slab_size_class by decide)] at hrun
  rcases halloc : allocate_small st.classes 0 os.protect_meta_ok os.protect_slab_ok
    with e | ⟨q, classes2, effs2⟩
  · rw [halloc] at hrun; cases hrun
  · rw [halloc] at hrun
    dsimp only at hrun
    cases hrun
    obtain ⟨index, slot, c1, h64, hcls, hcrs, hma, hslen1, hixa, hp, hbitset, heffs⟩ :=
      allocate_small_zero_spec st.classes os.protect_meta_ok os.protect_slab_ok
        p _ _ hcount hslen hlists halloc
    subst hcls
    have hC0 : (0:Nat) < st.classes.length := by rw [hlen37]; decide
    have hgd : (st.classes.set 0 c1).getD 0 default_class = c1 := getD_set_self _ _ hC0 _ _
    have hreal : real_class_region_size = 274877906944 := rfl
    have hclassreg : class_region_size = 137438953472 := rfl
    have hsrsz : slab_region_size = 10170482556928 := rfl
    have hPAGE : PAGE_SIZE = 4096 := rfl
    have hidx25 : index < 33554432 := by
      have := hal25
      omega
    have hp' : p = (st.classes.getD 0 default_class).class_region_start
        + index * 4096 + slot * 16 := by rw [hp, hcrs]
    have hple : st.slab_region_start + 4096 ≤ p := by
      rw [hPAGE] at hgap_lo
      omega
    have hpstripe : p < st.slab_region_start + 274877906944 := by
      rw [hclassreg, hreal] at hgap_hi
      omega
    have hpend : p < st.slab_region_end := by
      rw [hend, hsrsz]
      omega
    have hpu64 : p < U64_MOD := by
      have h2 : (18446744073709551616:Nat) = U64_MOD := rfl
      omega
    have hci0 : slab_size_class st.slab_region_start p = 0 := by
      unfold slab_size_class
      rw [hreal]
      exact Nat.div_eq_of_lt (by omega)
    have hc1le : c1.class_region_start ≤ p := by rw [hp]; omega
    have hindex2 : index = sub64 p c1.class_region_start / 4096 := by
      rw [sub64_eq hc1le hpu64]
      rw [hp]
      omega
    have hslab2 : get_slab c1 4096 index = c1.class_region_start + index * 4096 := rfl
    have hslot2 : slot = (p - get_slab c1 4096 index) / 16 := by
      rw [hslab2, hp]
      omega
    have halign2 : slot_pointer 16 (get_slab c1 4096 index) slot = p := by
      unfold slot_pointer
      rw [hslab2, hp]
    have hfree_spec := deallocate_small_zero_spec st.slab_region_start
      (st.classes.set 0 c1) p cm mf 0 c1 4096 index (get_slab c1 4096 index) slot
      (c1.slab_info.getD index zero_metadata)
      hci0.symm hgd.symm rfl rfl hindex2 rfl rfl hslot2
      (by rw [List.length_set]; exact hC0)
      (by omega)
      halign2 h64
      (by rw [hslen1]; omega)
      hbitset
    obtain ⟨cls', effs', hdea, hnozero, hclear⟩ := hfree_spec
    refine ⟨rfl, by omega, heffs, by omega, by rw [hreal]; omega, ?_, ?_⟩
    · -- usable size is 0
      unfold h_malloc_usable_size
      dsimp only
      rw [if_pos ⟨by omega, hpend⟩]
      unfold slab_usable_size
      rw [hci0]
      rfl
    · refine ⟨index, slot, h64, ?_, ?_, ?_⟩
      · rw [hgd]
        exact hp
      · rw [hgd]
        exact hbitset
      · unfold h_free
        dsimp only
        rw [if_pos ⟨by omega, hpend⟩]
        rw [hdea]
        dsimp only
        refine ⟨_, _, rfl, hnozero, ?_⟩
        exact hclear

/-- an initialized allocator state with a fresh class-0 stripe -/
def C10_st : AllocatorState := {
  slab_region_start := 1048576, slab_region_end := 1048576 + slab_region_size,
  classes := (List.replicate 37 default_class).set 0 {
    class_region_start := 1048576 + 4096, slab_info := [zero_metadata],
    inuse_slabs := [], empty_slabs := [], empty_slabs_total := 0, free_slabs := [],
    rng := [99, 5], metadata_allocated := 1, metadata_count := 0 },
  regions := init_regions, regions_rng := [0], initialized := true }

def C10_st' : AllocatorState :=
  match h_malloc C10_st OS_ok 0 with
  | .ok (_, st', _) => st'
  | .error _ => C10_st

def C10_effs : List MemEffect :=
  match h_malloc C10_st OS_ok 0 with
  | .ok (_, _, effs) => effs
  | .error _ => []

theorem C10_malloc_zero_sentinel_witness :
    get_size_info 0 = some ⟨0, 0⟩ ∧
    (1052752:Nat) ≠ 0 ∧
    C10_effs = [] ∧
    C10_st.slab_region_start ≤ 1052752 ∧
    1052752 < C10_st.slab_region_start + real_class_region_size ∧
    h_malloc_usable_size C10_st' (some 1052752) = .ok 0 ∧
    ∃ index slot : Nat, slot < 64 ∧
      (1052752:Nat) = (C10_st'.classes.getD 0 default_class).class_region_start
        + index * 4096 + slot * 16 ∧
      (((C10_st'.classes.getD 0 default_class).slab_info.getD index zero_metadata).bitmap
        >>> slot) % 2 = 1 ∧
      ∃ (st'' : AllocatorState) (effs2 : List MemEffect),
        h_free C10_st' (some 1052752) 777 true = .ok (st'', effs2) ∧
        (∀ a b, MemEffect.zero_write a b ∉ effs2) ∧
        (((st''.classes.getD 0 default_class).slab_info.getD index zero_metadata).bitmap
          >>> slot) % 2 = 0 :=
  C10_malloc_zero_sentinel C10_st OS_ok 1052752 C10_st' C10_effs 777 true
    (by decide) (by decide) (by decide) (by decide) (by decide) (by decide)
    (by decide) (by decide)
    (by
      intro i h
      rw [show (C10_st.classes.getD 0 default_class).inuse_slabs = [] from rfl,
        show (C10_st.classes.getD 0 default_class).empty_slabs = [] from rfl,
        show (C10_st.classes.getD 0 default_class).free_slabs = [] from rfl] at h
      rcases h with h | h | h <;> cases h)
    (by rfl)

/-! ### Cyclic-index arithmetic for the downward-probing region table

`dmod m a b` is the number of downward (decrementing) probe steps from slot
`a` to slot `b` in a table of `m` slots; `cyc_sub m a k` is the slot reached
from `a` after `k` downward steps. -/

def dmod (m a b : Nat) : Nat := (a + m - b) % m

def cyc_sub (m a k : Nat) : Nat := (a + m - k % m) % m

theorem mod_window (x m : Nat) (h1 : m ≤ x) (h2 : x < 2 * m) : x % m = x - m := by
  have h0 : 0 < m := by omega
  rw [Nat.mod_eq_sub_mod h1]
  exact Nat.mod_eq_of_lt (by omega)

theorem dmod_eq (m a b : Nat) (ha : a < m) (hb : b < m) :
    dmod m a b = if b ≤ a then a - b else m + a - b := by
  unfold dmod
  split
  · rw [mod_window _ _ (by omega) (by omega)]
    omega
  · rw [Nat.mod_eq_of_lt (by omega)]
    omega

theorem dmod_lt (m a b : Nat) (ha : a < m) (hb : b < m) : dmod m a b < m := by
  rw [dmod_eq m a b ha hb]
  split <;> omega

theorem dmod_self (m a : Nat) (ha : a < m) : dmod m a a = 0 := by
  rw [dmod_eq m a a ha ha]
  split <;> omega

theorem dmod_eq_zero_iff (m a b : Nat) (ha : a < m) (hb : b < m) :
    dmod m a b = 0 ↔ a = b := by
  rw [dmod_eq m a b ha hb]
  split <;> omega

theorem cyc_sub_lt (m a k : Nat) (h0 : 0 < m) : cyc_sub m a k < m :=
  Nat.mod_lt _ h0

theorem cyc_sub_eq (m a k : Nat) (ha : a < m) (hk : k < m) :
    cyc_sub m a k = if k ≤ a then a - k else m + a - k := by
  unfold cyc_sub
  rw [Nat.mod_eq_of_lt hk]
  split
  · rw [mod_window _ _ (by omega) (by omega)]
    omega
  · rw [Nat.mod_eq_of_lt (by omega)]
    omega

theorem cyc_sub_zero (m a : Nat) (ha : a < m) : cyc_sub m a 0 = a := by
  rw [cyc_sub_eq m a 0 ha (by omega)]
  split <;> omega

theorem cyc_sub_dmod (m a b : Nat) (ha : a < m) (hb : b < m) :
    cyc_sub m a (dmod m a b) = b := by
  rw [dmod_eq m a b ha hb]
  split
  · rw [cyc_sub_eq m a _ ha (by omega)]
    split <;> omega
  · rw [cyc_sub_eq m a _ ha (by omega)]
    split <;> omega

theorem dmod_cyc_sub (m a k : Nat) (ha : a < m) (hk : k < m) :
    dmod m a (cyc_sub m a k) = k := by
  rw [cyc_sub_eq m a k ha hk]
  split
  · rw [dmod_eq m a _ ha (by omega)]
    split <;> omega
  · rw [dmod_eq m a _ ha (by omega)]
    split <;> omega

theorem succ_mod (m k : Nat) (h0 : 0 < m) :
    (k + 1) % m = if k % m + 1 = m then 0 else k % m + 1 := by
  have hk : k % m < m := Nat.mod_lt k h0
  conv_lhs => rw [← Nat.mod_add_div k m]
  rw [show k % m + m * (k / m) + 1 = (k % m + 1) + (k / m) * m by ring]
  rw [Nat.add_mul_mod_self_right]
  split
  · rename_i h
    rw [h, Nat.mod_self]
  · exact Nat.mod_eq_of_lt (by omega)

theorem dec_index_cyc_sub (m a k : Nat) (ha : a < m) :
    dec_index m (cyc_sub m a k) = cyc_sub m a (k + 1) := by
  have h0 : 0 < m := by omega
  have hr : k % m < m := Nat.mod_lt k h0
  unfold dec_index cyc_sub
  rw [succ_mod m k h0]
  by_cases hm : k % m + 1 = m
  · rw [if_pos hm]
    rw [show a + m - 0 = a + m by omega, Nat.add_mod_right, Nat.mod_eq_of_lt ha]
    rcases Nat.lt_or_ge (a + 1) m with h1 | h1
    · rw [Nat.mod_eq_of_lt (a := a + m - k % m) (by omega)]
      rw [mod_window (a + m - k % m + m - 1) m (by omega) (by omega)]
      omega
    · have ha1 : a + 1 = m := by omega
      rw [show a + m - k % m = m by omega, Nat.mod_self]
      rw [Nat.mod_eq_of_lt (a := 0 + m - 1) (by omega)]
      omega
  · rw [if_neg hm]
    rcases Nat.lt_or_ge (a + m - k % m) m with hc | hc
    · rw [Nat.mod_eq_of_lt hc]
      rw [mod_window (a + m - k % m + m - 1) m (by omega) (by omega)]
      rw [Nat.mod_eq_of_lt (a := a + m - (k % m + 1)) (by omega)]
      omega
    · rw [mod_window (a + m - k % m) m hc (by omega)]
      rcases Nat.lt_or_ge (k % m) a with h2 | h2
      · rw [mod_window (a + m - k % m - m + m - 1) m (by omega) (by omega)]
        rw [mod_window (a + m - (k % m + 1)) m (by omega) (by omega)]
        omega
      · have h3 : k % m = a := by omega
        rw [show a + m - k % m - m + m - 1 = m - 1 by omega]
        rw [Nat.mod_eq_of_lt (by omega)]
        rw [Nat.mod_eq_of_lt (a := a + m - (k % m + 1)) (by omega)]
        omega

theorem cyc_sub_add (m a j k : Nat) (ha : a < m) :
    cyc_sub m (cyc_sub m a j) k = cyc_sub m a (j + k) := by
  have h0 : 0 < m := by omega
  have hj : j % m < m := Nat.mod_lt j h0
  have hk : k % m < m := Nat.mod_lt k h0
  unfold cyc_sub
  rw [Nat.add_mod j k m]
  rcases Nat.lt_or_ge (j % m + k % m) m with hrs | hrs
  · rw [Nat.mod_eq_of_lt (a := j % m + k % m) (by omega)]
    rcases Nat.lt_or_ge (a + m - j % m) m with hc | hc
    · rw [Nat.mod_eq_of_lt hc]
      rw [mod_window (a + m - j % m + m - k % m) m (by omega) (by omega)]
      rw [Nat.mod_eq_of_lt (a := a + m - (j % m + k % m)) (by omega)]
      omega
    · rw [mod_window (a + m - j % m) m hc (by omega)]
      congr 1
      omega
  · rw [mod_window (j % m + k % m) m hrs (by omega)]
    rcases Nat.lt_or_ge (a + m - j % m) m with hc | hc
    · rw [Nat.mod_eq_of_lt hc]
      congr 1
      omega
    · rw [mod_window (a + m - j % m) m hc (by omega)]
      rw [show a + m - (j % m + k % m - m) = (a + m - j % m - m + m - k % m) + m from by
        omega]
      rw [Nat.add_mod_right]

theorem cyc_sub_total (m a : Nat) (ha : a < m) : cyc_sub m a m = a := by
  unfold cyc_sub
  rw [Nat.mod_self, show a + m - 0 = a + m by omega, Nat.add_mod_right,
    Nat.mod_eq_of_lt ha]

theorem cyc_sub_inj (m a k k' : Nat) (ha : a < m) (hk : k < m) (hk' : k' < m)
    (h : cyc_sub m a k = cyc_sub m a k') : k = k' := by
  have := dmod_cyc_sub m a k ha hk
  have := dmod_cyc_sub m a k' ha hk'
  rw [h] at *
  omega

/-! ### Counting occupied cells -/

theorem countP_set_eq {α : Type} (p : α → Bool) (l : List α) (d : α) :
    ∀ (i : Nat) (a : α), i < l.length →
      (l.set i a).countP p + (if p (l.getD i d) then 1 else 0) =
        l.countP p + (if p a then 1 else 0) := by
  induction l with
  | nil => intro i a h; simp at h
  | cons x xs ih =>
    intro i a h
    cases i with
    | zero =>
      simp only [List.set_cons_zero, List.getD_cons_zero, List.countP_cons]
      omega
    | succ i =>
      simp only [List.set_cons_succ, List.getD_cons_succ, List.countP_cons]
      have := ih i a (by simpa using h)
      omega

theorem occupiedCount_set (l : List region_info) (i : Nat) (e : region_info)
    (h : i < l.length) :
    occupiedCount (l.set i e) + (if (l.getD i emptyRI).p ≠ 0 then 1 else 0) =
      occupiedCount l + (if e.p ≠ 0 then 1 else 0) := by
  have := countP_set_eq (fun c => c.p != 0) l emptyRI i e h
  simpa [occupiedCount, bne_iff_ne] using this

theorem occupiedCount_le_length (l : List region_info) : occupiedCount l ≤ l.length :=
  List.countP_le_length _

theorem exists_null_of_occ_lt (l : List region_info)
    (h : occupiedCount l < l.length) :
    ∃ j, j < l.length ∧ (l.getD j emptyRI).p = 0 := by
  by_contra hc
  push_neg at hc
  have hall : ∀ a ∈ l, (fun c : region_info => c.p != 0) a = true := by
    intro a ha
    rcases List.mem_iff_getElem.mp ha with ⟨j, hj, rfl⟩
    have := hc j hj
    rw [List.getD_eq_getElem l emptyRI hj] at this
    simpa [bne_iff_ne] using this
  have := List.countP_eq_length.mpr hall
  rw [occupiedCount] at h
  omega

theorem getD_replicate (n j : Nat) :
    (List.replicate n emptyRI).getD j emptyRI = emptyRI := by
  rcases Nat.lt_or_ge j n with h | h
  · rw [List.getD_eq_getElem _ _ (by simpa using h)]
    exact List.getElem_replicate emptyRI (by simpa using h)
  · exact List.getD_eq_default _ _ (by simpa using h)

theorem occupiedCount_replicate (n : Nat) :
    occupiedCount (List.replicate n emptyRI) = 0 := by
  induction n with
  | zero => rfl
  | succ n ih =>
    rw [List.replicate_succ]
    simp only [occupiedCount, List.countP_cons] at *
    simp [ih, emptyRI]

/-! ### The region-table invariant -/

/-- Every occupied entry is reachable from its ideal bucket by the downward
probe without crossing an empty cell. -/
def probeInv (regions : List region_info) (total : Nat) : Prop :=
  ∀ i, i < total → (regions.getD i emptyRI).p ≠ 0 →
    ∀ k, k < dmod total (hash_page (regions.getD i emptyRI).p % total) i →
      (regions.getD (cyc_sub total (hash_page (regions.getD i emptyRI).p % total) k)
        emptyRI).p ≠ 0

/-- No pointer key occurs in two distinct cells. -/
def distinctKeys (regions : List region_info) (total : Nat) : Prop :=
  ∀ i j, i < total → j < total → i ≠ j → (regions.getD i emptyRI).p ≠ 0 →
    (regions.getD i emptyRI).p ≠ (regions.getD j emptyRI).p

/-- The region-table invariant maintained by regions_insert / regions_delete
(regions_grow included): shape, counter consistency, the load-factor bound,
and the probe-structure facts that make regions_find complete. -/
def RTInv (s : RegionsState) : Prop :=
  s.regions.length = s.regions_total ∧
  initial_region_table_size ≤ s.regions_total ∧
  s.regions_free + occupiedCount s.regions = s.regions_total ∧
  4 * occupiedCount s.regions ≤ 3 * s.regions_total + 4 ∧
  probeInv s.regions s.regions_total ∧
  distinctKeys s.regions s.regions_total

/-! ### Probe-path characterization of probe_empty -/

theorem dec_index_eq_cyc_sub_one (total start : Nat) (hs : start < total) :
    dec_index total start = cyc_sub total start 1 := by
  have h1 := dec_index_cyc_sub total start 0 hs
  rw [cyc_sub_zero total start hs] at h1
  exact h1

theorem probe_empty_path {regions : List region_info} {total : Nat} :
    ∀ (fuel start i : Nat), start < total →
      probe_empty regions total start fuel = some i →
      ∃ d, d < fuel ∧ i = cyc_sub total start d ∧
        (regions.getD i emptyRI).p = 0 ∧
        ∀ k, k < d → (regions.getD (cyc_sub total start k) emptyRI).p ≠ 0 := by
  intro fuel
  induction fuel with
  | zero => intro start i _ hp; simp [probe_empty] at hp
  | succ m ih =>
    intro start i hs hp
    unfold probe_empty at hp
    split at hp
    · rename_i hnull
      cases hp
      exact ⟨0, by omega, (cyc_sub_zero total start hs).symm, hnull,
        fun k hk => by omega⟩
    · rename_i hocc
      have h0 : 0 < total := by omega
      rcases ih (dec_index total start) i (dec_index_lt _ _ h0) hp with
        ⟨d, hd, hi, hnull, hpath⟩
      refine ⟨d + 1, by omega, ?_, hnull, ?_⟩
      · rw [hi, dec_index_eq_cyc_sub_one total start hs,
          cyc_sub_add total start 1 d hs, Nat.add_comm 1 d]
      · intro k hk
        cases k with
        | zero =>
          rw [cyc_sub_zero total start hs]
          exact hocc
        | succ k' =>
          have := hpath k' (by omega)
          rw [dec_index_eq_cyc_sub_one total start hs,
            cyc_sub_add total start 1 k' hs] at this
          rw [show k' + 1 = 1 + k' by omega]
          exact this

theorem probe_empty_succeeds {regions : List region_info} {total : Nat} :
    ∀ (fuel start : Nat), start < total →
      (∃ d, d < fuel ∧ (regions.getD (cyc_sub total start d) emptyRI).p = 0) →
      ∃ i, probe_empty regions total start fuel = some i := by
  intro fuel
  induction fuel with
  | zero => intro start _ h; omega
  | succ m ih =>
    intro start hs h
    have h0 : 0 < total := by omega
    by_cases hnull : (regions.getD start emptyRI).p = 0
    · exact ⟨start, by unfold probe_empty; rw [if_pos hnull]⟩
    · rcases h with ⟨d, hd, hdn⟩
      cases d with
      | zero =>
        rw [cyc_sub_zero total start hs] at hdn
        exact absurd hdn hnull
      | succ d' =>
        rcases ih (dec_index total start) (dec_index_lt _ _ h0)
            ⟨d', by omega, by
              rw [dec_index_eq_cyc_sub_one total start hs,
                cyc_sub_add total start 1 d' hs]
              rw [show 1 + d' = d' + 1 by omega]
              exact hdn⟩ with ⟨i, hi⟩
        exact ⟨i, by unfold probe_empty; rw [if_neg hnull]; exact hi⟩

/-! ### Placing one fresh entry preserves the probe invariant -/

theorem place_entry_spec {t : List region_info} {total : Nat} {e : region_info}
    (hlen : t.length = total) (h0 : 0 < total)
    (hocc : occupiedCount t < total)
    (hpi : probeInv t total) (hdk : distinctKeys t total)
    (hep : e.p ≠ 0)
    (hfresh : ∀ j, j < total → (t.getD j emptyRI).p ≠ e.p) :
    ∃ t', place_entry t total e = some t' ∧
      t'.length = total ∧
      occupiedCount t' = occupiedCount t + 1 ∧
      probeInv t' total ∧ distinctKeys t' total ∧
      (∀ q, (∃ j, j < total ∧ (t'.getD j emptyRI).p = q) →
        q = e.p ∨ ∃ j, j < total ∧ (t.getD j emptyRI).p = q) := by
  have hr : hash_page e.p % total < total := Nat.mod_lt _ h0
  rcases exists_null_of_occ_lt t (by omega) with ⟨jn, hjn, hjnull⟩
  have hjn' : jn < total := by omega
  rcases probe_empty_succeeds total (hash_page e.p % total) hr
      ⟨dmod total (hash_page e.p % total) jn, dmod_lt _ _ _ hr hjn', by
        rw [cyc_sub_dmod total _ jn hr hjn']
        exact hjnull⟩ with ⟨i, hprobe⟩
  rcases probe_empty_path total (hash_page e.p % total) i hr hprobe with
    ⟨d, hdlt, hid, hinull, hpath⟩
  have hi : i < total := by
    rw [hid]
    exact cyc_sub_lt total _ d h0
  have hil : i < t.length := by omega
  have hmono : ∀ y, (t.getD y emptyRI).p ≠ 0 → ((t.set i e).getD y emptyRI).p ≠ 0 := by
    intro y hy
    by_cases hyi : i = y
    · rw [← hyi, getD_set_self t i hil e emptyRI]
      exact hep
    · rw [getD_set_ne t hyi e emptyRI]
      exact hy
  have hdmri : dmod total (hash_page e.p % total) i = d := by
    rw [hid]
    exact dmod_cyc_sub total _ d hr hdlt
  refine ⟨t.set i e, by unfold place_entry; rw [hprobe], ?_, ?_, ?_, ?_, ?_⟩
  · rw [List.length_set]
    exact hlen
  · have := occupiedCount_set t i e hil
    rw [if_neg (not_not_intro hinull), if_pos hep] at this
    omega
  · intro x hx hxocc k hk
    by_cases hxi : i = x
    · rw [← hxi, getD_set_self t i hil e emptyRI] at hxocc hk ⊢
      rw [hdmri] at hk
      exact hmono _ (hpath k (by omega))
    · rw [getD_set_ne t hxi e emptyRI] at hxocc hk ⊢
      exact hmono _ (hpi x hx hxocc k hk)
  · intro x y hx hy hxy hxocc
    by_cases hix : i = x
    · rw [← hix, getD_set_self t i hil e emptyRI]
      rw [getD_set_ne t (show i ≠ y by omega) e emptyRI]
      exact fun hq => hfresh y hy hq.symm
    · rw [getD_set_ne t hix e emptyRI] at hxocc ⊢
      by_cases hiy : i = y
      · rw [← hiy, getD_set_self t i hil e emptyRI]
        exact hfresh x hx
      · rw [getD_set_ne t hiy e emptyRI]
        exact hdk x y hx hy hxy hxocc
  · intro q hq
    rcases hq with ⟨j, hj, hqj⟩
    by_cases hij : i = j
    · rw [← hij, getD_set_self t i hil e emptyRI] at hqj
      exact Or.inl hqj.symm
    · rw [getD_set_ne t hij e emptyRI] at hqj
      exact Or.inr ⟨j, hj, hqj⟩

/-! ### regions_find: soundness and completeness over the invariant -/

theorem regions_find_loop_some {regions : List region_info} {total p : Nat} :
    ∀ (fuel start idx : Nat), start < total →
      regions_find_loop regions total p start fuel = some idx →
      idx < total ∧ (regions.getD idx emptyRI).p = p ∧ p ≠ 0 := by
  intro fuel
  induction fuel with
  | zero => intro start idx _ h; simp [regions_find_loop] at h
  | succ m ih =>
    intro start idx hs h
    unfold regions_find_loop at h
    dsimp only at h
    split at h
    · exact ih _ _ (dec_index_lt _ _ (by omega)) h
    · split at h
      · rename_i h1 h2
        cases h
        exact ⟨hs, h2.1, by rw [← h2.1]; exact h2.2⟩
      · cases h

theorem regions_find_loop_reaches {regions : List region_info} {total p : Nat} :
    ∀ (d fuel start : Nat), start < total → d < fuel →
      (regions.getD (cyc_sub total start d) emptyRI).p = p → p ≠ 0 →
      (∀ k, k < d → (regions.getD (cyc_sub total start k) emptyRI).p ≠ 0 ∧
        (regions.getD (cyc_sub total start k) emptyRI).p ≠ p) →
      regions_find_loop regions total p start fuel = some (cyc_sub total start d) := by
  intro d
  induction d with
  | zero =>
    intro fuel start hs hf hp hp0 _
    rw [cyc_sub_zero total start hs] at hp ⊢
    cases fuel with
    | zero => omega
    | succ m =>
      unfold regions_find_loop
      dsimp only
      rw [if_neg (fun hc => hc.1 hp), if_pos ⟨hp, by rw [hp]; exact hp0⟩]
  | succ d' ih =>
    intro fuel start hs hf hp hp0 hpath
    have h0 : 0 < total := by omega
    cases fuel with
    | zero => omega
    | succ m =>
      unfold regions_find_loop
      dsimp only
      have h01 := hpath 0 (by omega)
      rw [cyc_sub_zero total start hs] at h01
      rw [if_pos ⟨h01.2, h01.1⟩]
      rw [dec_index_eq_cyc_sub_one total start hs]
      have hres := ih m (cyc_sub total start 1) (cyc_sub_lt _ _ _ h0) (by omega)
        (by rw [cyc_sub_add total start 1 d' hs, Nat.add_comm 1 d']; exact hp) hp0
        (by
          intro k hk
          rw [cyc_sub_add total start 1 k hs, Nat.add_comm 1 k]
          exact hpath (k + 1) (by omega))
      rw [hres, cyc_sub_add total start 1 d' hs, Nat.add_comm 1 d']

theorem regions_find_of_inv {s : RegionsState}
    (hlen : s.regions.length = s.regions_total) (h0 : 0 < s.regions_total)
    (hpi : probeInv s.regions s.regions_total)
    (hdk : distinctKeys s.regions s.regions_total)
    (i : Nat) (hi : i < s.regions_total)
    (hocc : (s.regions.getD i emptyRI).p ≠ 0) :
    regions_find s (s.regions.getD i emptyRI).p = some i := by
  have hrlt : hash_page (s.regions.getD i emptyRI).p % s.regions_total <
      s.regions_total := Nat.mod_lt _ h0
  have hdlt := dmod_lt s.regions_total
    (hash_page (s.regions.getD i emptyRI).p % s.regions_total) i hrlt hi
  have hrec : cyc_sub s.regions_total
      (hash_page (s.regions.getD i emptyRI).p % s.regions_total)
      (dmod s.regions_total
        (hash_page (s.regions.getD i emptyRI).p % s.regions_total) i) = i :=
    cyc_sub_dmod _ _ _ hrlt hi
  unfold regions_find
  have hres := regions_find_loop_reaches
    (dmod s.regions_total (hash_page (s.regions.getD i emptyRI).p % s.regions_total) i)
    s.regions_total
    (hash_page (s.regions.getD i emptyRI).p % s.regions_total) hrlt hdlt
    (by rw [hrec]) hocc
    (by
      intro k hk
      have hkt : k < s.regions_total := by omega
      have hne : cyc_sub s.regions_total
          (hash_page (s.regions.getD i emptyRI).p % s.regions_total) k ≠ i := by
        intro hc
        have h2 := dmod_cyc_sub s.regions_total
          (hash_page (s.regions.getD i emptyRI).p % s.regions_total) k hrlt hkt
        rw [hc] at h2
        omega
      have hkocc := hpi i hi hocc k hk
      refine ⟨hkocc, ?_⟩
      exact hdk _ i (cyc_sub_lt _ _ _ h0) hi hne hkocc)
  rw [hres, hrec]

/-! ### The rehash loop of regions_grow preserves the invariant -/

theorem foldl_rehash_spec (newtotal : Nat) (h0 : 0 < newtotal) :
    ∀ (l : List region_info) (t : List region_info),
      t.length = newtotal →
      probeInv t newtotal → distinctKeys t newtotal →
      occupiedCount t + occupiedCount l < newtotal →
      (∀ cell ∈ l, cell.p ≠ 0 → ∀ j, j < newtotal → (t.getD j emptyRI).p ≠ cell.p) →
      List.Pairwise (fun a b : region_info => a.p ≠ 0 → a.p ≠ b.p) l →
      ∃ t', l.foldl (rehash_step newtotal) (some t) = some t' ∧
        t'.length = newtotal ∧
        occupiedCount t' = occupiedCount t + occupiedCount l ∧
        probeInv t' newtotal ∧ distinctKeys t' newtotal ∧
        (∀ q, q ≠ 0 → (∃ j, j < newtotal ∧ (t'.getD j emptyRI).p = q) →
          (∃ cell ∈ l, cell.p = q) ∨ ∃ j, j < newtotal ∧ (t.getD j emptyRI).p = q) := by
  intro l
  induction l with
  | nil =>
    intro t hlen hpi hdk hocc hdisj hpair
    exact ⟨t, rfl, hlen, by simp [occupiedCount], hpi, hdk,
      fun q hq hpres => Or.inr hpres⟩
  | cons c cl ih =>
    intro t hlen hpi hdk hocc hdisj hpair
    rw [List.foldl_cons]
    rw [List.pairwise_cons] at hpair
    have hoccc : occupiedCount (c :: cl) =
        occupiedCount cl + (if c.p ≠ 0 then 1 else 0) := by
      simp only [occupiedCount, List.countP_cons]
      by_cases hc : c.p = 0
      · rw [if_neg (not_not_intro hc), if_neg (by simp [hc])]
      · rw [if_pos hc, if_pos (by simp [hc])]
    by_cases hc : c.p = 0
    · rw [show rehash_step newtotal (some t) c = some t by
        simp [rehash_step, hc]]
      obtain ⟨t', hfold, hlen', hocc', hpi', hdk', hkeys'⟩ := ih t hlen hpi hdk
        (by rw [hoccc, if_neg (not_not_intro hc)] at hocc; omega)
        (fun cell hmem => hdisj cell (List.mem_cons_of_mem c hmem))
        hpair.2
      refine ⟨t', hfold, hlen', ?_, hpi', hdk', ?_⟩
      · rw [hoccc, if_neg (not_not_intro hc)]
        omega
      · intro q hq hpres
        rcases hkeys' q hq hpres with ⟨cell, hmem, hcq⟩ | hold
        · exact Or.inl ⟨cell, List.mem_cons_of_mem c hmem, hcq⟩
        · exact Or.inr hold
    · rw [show rehash_step newtotal (some t) c = place_entry t newtotal c by
        simp [rehash_step, hc]]
      obtain ⟨t1, hpe, hlen1, hocc1, hpi1, hdk1, hkeys1⟩ :=
        place_entry_spec hlen h0 (by omega) hpi hdk hc
          (fun j hj => hdisj c (List.mem_cons_self c cl) hc j hj)
      rw [hpe]
      obtain ⟨t', hfold, hlen', hocc', hpi', hdk', hkeys'⟩ := ih t1 hlen1 hpi1 hdk1
        (by rw [hoccc, if_pos hc] at hocc; omega)
        (by
          intro cell hmem hcp j hj heq
          rcases hkeys1 cell.p ⟨j, hj, heq⟩ with hec | ⟨j', hj', heq'⟩
          · exact (hpair.1 cell hmem hc) hec.symm
          · exact hdisj cell (List.mem_cons_of_mem c hmem) hcp j' hj' heq')
        hpair.2
      refine ⟨t', hfold, hlen', ?_, hpi', hdk', ?_⟩
      · rw [hoccc, if_pos hc]
        omega
      · intro q hq hpres
        rcases hkeys' q hq hpres with ⟨cell, hmem, hcq⟩ | hpres1
        · exact Or.inl ⟨cell, List.mem_cons_of_mem c hmem, hcq⟩
        · rcases hkeys1 q hpres1 with hec | hold
          · exact Or.inl ⟨c, List.mem_cons_self c cl, hec.symm⟩
          · exact Or.inr hold

theorem regions_grow_spec {s : RegionsState} {ok : Bool} {s1 : RegionsState}
    (h : regions_grow s ok = some s1)
    (hlen : s.regions.length = s.regions_total)
    (h0 : 0 < s.regions_total)
    (hpi : probeInv s.regions s.regions_total)
    (hdk : distinctKeys s.regions s.regions_total) :
    s1.regions_total = 2 * s.regions_total ∧
    s1.regions_free = s.regions_free + s.regions_total ∧
    s1.regions.length = s1.regions_total ∧
    occupiedCount s1.regions = occupiedCount s.regions ∧
    probeInv s1.regions s1.regions_total ∧
    distinctKeys s1.regions s1.regions_total ∧
    (∀ q, q ≠ 0 → (∃ j, j < s1.regions_total ∧ (s1.regions.getD j emptyRI).p = q) →
      ∃ j, j < s.regions_total ∧ (s.regions.getD j emptyRI).p = q) := by
  unfold regions_grow at h
  by_cases h1 : s.regions_total > (2 ^ 64 - 1) / 24 / 2
  · rw [if_pos h1] at h; cases h
  · rw [if_neg h1] at h
    dsimp only at h
    by_cases h2 : s.regions_total * 2 > max_region_table_size
    · rw [if_pos h2] at h; cases h
    · rw [if_neg h2] at h
      by_cases h3 : ok = true
      · rw [if_neg (by simp [h3])] at h
        obtain ⟨t', hfold, hlen', hocc', hpi', hdk', hkeys'⟩ :=
          foldl_rehash_spec (s.regions_total * 2) (by omega) s.regions
            (List.replicate (s.regions_total * 2) emptyRI)
            (by simp)
            (by
              intro i hi hiocc
              rw [getD_replicate] at hiocc
              exact absurd rfl hiocc)
            (by
              intro i j hi hj hij hiocc
              rw [getD_replicate] at hiocc
              exact absurd rfl hiocc)
            (by
              have := occupiedCount_le_length s.regions
              rw [occupiedCount_replicate]
              omega)
            (by
              intro cell hmem hcp j hj heq
              rw [getD_replicate] at heq
              exact hcp heq.symm)
            (by
              rw [List.pairwise_iff_getElem]
              intro i j hi hj hij
              have hdi := hdk i j (by omega) (by omega) (by omega)
              rw [List.getD_eq_getElem s.regions emptyRI hi,
                List.getD_eq_getElem s.regions emptyRI hj] at hdi
              exact hdi)
        rw [hfold] at h
        cases h
        refine ⟨Nat.mul_comm s.regions_total 2, rfl, ?_, ?_, hpi', hdk', ?_⟩
        · exact hlen'
        · rw [hocc', occupiedCount_replicate]
          omega
        · intro q hq hpres
          rcases hkeys' q hq hpres with ⟨cell, hmem, hcq⟩ | ⟨j, hj, hjq⟩
          · rcases List.mem_iff_getElem.mp hmem with ⟨j, hjl, hje⟩
            refine ⟨j, by omega, ?_⟩
            rw [List.getD_eq_getElem s.regions emptyRI hjl, hje, hcq]
          · rw [getD_replicate] at hjq
            exact absurd hjq.symm hq
      · rw [if_pos (by simp [h3])] at h; cases h

/-! ### regions_insert and regions_delete preserve the invariant -/

theorem regions_insert_inv {s : RegionsState} {ok : Bool} {p sz g : Nat}
    {s' : RegionsState}
    (hinv : RTInv s) (hp : p ≠ 0)
    (hfresh : ∀ i, i < s.regions_total → (s.regions.getD i emptyRI).p ≠ p)
    (hins : regions_insert s ok p sz g = some s') :
    RTInv s' := by
  obtain ⟨hlen, h256, hfree, hload, hpi, hdk⟩ := hinv
  have hini : initial_region_table_size = 256 := rfl
  have h0 : 0 < s.regions_total := by omega
  have hoccle := occupiedCount_le_length s.regions
  unfold regions_insert at hins
  rcases hg : (if s.regions_free * 4 < s.regions_total then regions_grow s ok
      else some s) with _ | s1
  · rw [hg] at hins; cases hins
  · rw [hg] at hins
    dsimp only at hins
    have hs1 : s1.regions.length = s1.regions_total ∧
        probeInv s1.regions s1.regions_total ∧
        distinctKeys s1.regions s1.regions_total ∧
        occupiedCount s1.regions = occupiedCount s.regions ∧
        (∀ i, i < s1.regions_total → (s1.regions.getD i emptyRI).p ≠ p) ∧
        s1.regions_free + occupiedCount s1.regions = s1.regions_total ∧
        initial_region_table_size ≤ s1.regions_total ∧
        occupiedCount s1.regions < s1.regions_total ∧
        4 * (occupiedCount s1.regions + 1) ≤ 3 * s1.regions_total + 4 := by
      by_cases hcond : s.regions_free * 4 < s.regions_total
      · rw [if_pos hcond] at hg
        obtain ⟨ht, hf, hl, ho, hpi1, hdk1, hk1⟩ := regions_grow_spec hg hlen h0 hpi hdk
        refine ⟨hl, hpi1, hdk1, ho, ?_, by omega, by omega, by omega, by omega⟩
        intro i hi hip
        rcases hk1 p hp ⟨i, hi, hip⟩ with ⟨j, hj, hjq⟩
        exact hfresh j hj hjq
      · rw [if_neg hcond] at hg
        cases hg
        exact ⟨hlen, hpi, hdk, rfl, hfresh, hfree, h256, by omega, by omega⟩
    obtain ⟨hlen1, hpi1, hdk1, hocc1, hfresh1, hfree1, h2561, hocclt1, hload1⟩ := hs1
    have h01 : 0 < s1.regions_total := by omega
    obtain ⟨t', hpe, hlen', hocc', hpi', hdk', hkeys'⟩ :=
      place_entry_spec (e := ⟨p, sz, g⟩) hlen1 h01 hocclt1 hpi1 hdk1 hp
        (fun j hj => hfresh1 j hj)
    unfold place_entry at hpe
    dsimp only at hpe
    rcases hprobe : probe_empty s1.regions s1.regions_total
        (hash_page p % s1.regions_total) s1.regions_total with _ | index
    · rw [hprobe] at hins; cases hins
    · rw [hprobe] at hins hpe
      cases hins
      cases hpe
      refine ⟨hlen', h2561, ?_, ?_, hpi', hdk'⟩
      · dsimp only
        rw [hocc']
        omega
      · dsimp only
        rw [hocc']
        omega

/-! ### The backward-shift deletion -/

/-- The C skip condition `(i <= r && r < j) || (r < j && j < i) || (j < i && i <= r)`
says exactly that the probed item at `i` is at least as far from its ideal
bucket `r` as the gap `j` is (so it cannot be moved up into the gap). -/
theorem delete_cond_iff (m i r j : Nat) (hi : i < m) (hr : r < m) (hj : j < m)
    (hij : i ≠ j) :
    delete_cond i r j = true ↔ dmod m r i ≤ dmod m r j := by
  unfold delete_cond
  rw [dmod_eq m r i hr hi, dmod_eq m r j hr hj]
  simp only [Bool.or_eq_true, Bool.and_eq_true, decide_eq_true_eq]
  split_ifs <;> omega

theorem cyc_sub_ne_base (m a k : Nat) (ha : a < m) (h1 : 0 < k) (h2 : k < m) :
    cyc_sub m a k ≠ a := by
  intro hc
  have h3 := dmod_cyc_sub m a k ha h2
  rw [hc] at h3
  rw [dmod_self m a ha] at h3
  omega

theorem delete_scan_none_spec {regions : List region_info} {total j : Nat}
    (hj : j < total) :
    ∀ (fuel d start : Nat), start = cyc_sub total j d →
      (∃ dn, d < dn ∧ dn ≤ d + fuel ∧
        (regions.getD (cyc_sub total j dn) emptyRI).p = 0) →
      delete_scan regions total j start fuel = none →
      ∃ dn, d < dn ∧ dn ≤ d + fuel ∧
        (regions.getD (cyc_sub total j dn) emptyRI).p = 0 ∧
        ∀ k, d < k → k < dn →
          (regions.getD (cyc_sub total j k) emptyRI).p ≠ 0 ∧
          delete_cond (cyc_sub total j k)
            (hash_page (regions.getD (cyc_sub total j k) emptyRI).p % total) j
            = true := by
  intro fuel
  induction fuel with
  | zero =>
    intro d start hstart hnull hscan
    rcases hnull with ⟨dn, h1, h2, _⟩
    omega
  | succ m ih =>
    intro d start hstart hnull hscan
    unfold delete_scan at hscan
    dsimp only at hscan
    rw [hstart, dec_index_cyc_sub total j d hj] at hscan
    split at hscan
    · rename_i hcellnull
      refine ⟨d + 1, by omega, by omega, hcellnull, ?_⟩
      intro k hk1 hk2
      omega
    · rename_i hcellocc
      split at hscan
      · rename_i hcond
        have hnull1 : ∃ dn, d + 1 < dn ∧ dn ≤ d + 1 + m ∧
            (regions.getD (cyc_sub total j dn) emptyRI).p = 0 := by
          rcases hnull with ⟨dn, h1, h2, h3⟩
          refine ⟨dn, ?_, by omega, h3⟩
          rcases Nat.lt_or_ge (d + 1) dn with h | h
          · exact h
          · have : dn = d + 1 := by omega
            rw [this] at h3
            exact absurd h3 hcellocc
        rcases ih (d + 1) (cyc_sub total j (d + 1)) rfl hnull1 hscan with
          ⟨dn, h1, h2, h3, h4⟩
        refine ⟨dn, by omega, by omega, h3, ?_⟩
        intro k hk1 hk2
        rcases Nat.lt_or_ge (d + 1) k with h | h
        · exact h4 k h hk2
        · have hkd : k = d + 1 := by omega
          rw [hkd]
          exact ⟨hcellocc, hcond⟩
      · cases hscan

theorem delete_scan_some_spec {regions : List region_info} {total j : Nat}
    (hj : j < total) :
    ∀ (fuel d start x : Nat), start = cyc_sub total j d →
      delete_scan regions total j start fuel = some x →
      ∃ dx, d < dx ∧ dx ≤ d + fuel ∧ x = cyc_sub total j dx ∧
        (regions.getD x emptyRI).p ≠ 0 ∧
        delete_cond x (hash_page (regions.getD x emptyRI).p % total) j = false ∧
        ∀ k, d < k → k < dx →
          (regions.getD (cyc_sub total j k) emptyRI).p ≠ 0 ∧
          delete_cond (cyc_sub total j k)
            (hash_page (regions.getD (cyc_sub total j k) emptyRI).p % total) j
            = true := by
  intro fuel
  induction fuel with
  | zero =>
    intro d start x _ hscan
    simp [delete_scan] at hscan
  | succ m ih =>
    intro d start x hstart hscan
    unfold delete_scan at hscan
    dsimp only at hscan
    rw [hstart, dec_index_cyc_sub total j d hj] at hscan
    split at hscan
    · cases hscan
    · rename_i hcellocc
      split at hscan
      · rename_i hcond
        rcases ih (d + 1) (cyc_sub total j (d + 1)) x rfl hscan with
          ⟨dx, h1, h2, h3, h4, h5, h6⟩
        refine ⟨dx, by omega, by omega, h3, h4, h5, ?_⟩
        intro k hk1 hk2
        rcases Nat.lt_or_ge (d + 1) k with h | h
        · exact h6 k h hk2
        · have hkd : k = d + 1 := by omega
          rw [hkd]
          exact ⟨hcellocc, hcond⟩
      · rename_i hcond
        cases hscan
        refine ⟨d + 1, by omega, by omega, rfl, hcellocc, by
          simpa using hcond, ?_⟩
        intro k hk1 hk2
        omega

/-- The outer loop of regions_delete: starting from an occupied gap-duplicate
slot `g`, with (a) a reachable empty cell within `fuel` downward steps, (b)
every occupied entry other than the one at `g` probe-reachable, and (c) keys
distinct except possibly at `g`, the loop terminates with one occupied cell
fewer and the full probe invariant and key distinctness restored. -/
theorem delete_outer_spec (total : Nat) (h0 : 0 < total) :
    ∀ (fuel : Nat) (T : List region_info) (g : Nat),
      T.length = total → g < total →
      (T.getD g emptyRI).p ≠ 0 →
      (∃ dn, 0 < dn ∧ dn < total ∧ dn ≤ fuel ∧
        (T.getD (cyc_sub total g dn) emptyRI).p = 0) →
      (∀ i, i < total → i ≠ g → (T.getD i emptyRI).p ≠ 0 →
        ∀ k, k < dmod total (hash_page (T.getD i emptyRI).p % total) i →
          (T.getD (cyc_sub total (hash_page (T.getD i emptyRI).p % total) k)
            emptyRI).p ≠ 0) →
      (∀ x y, x < total → y < total → x ≠ y → (T.getD x emptyRI).p ≠ 0 →
        (T.getD x emptyRI).p = (T.getD y emptyRI).p → x = g ∨ y = g) →
      (delete_outer total fuel T g).length = total ∧
      occupiedCount (delete_outer total fuel T g) + 1 = occupiedCount T ∧
      probeInv (delete_outer total fuel T g) total ∧
      distinctKeys (delete_outer total fuel T g) total := by
  intro fuel
  induction fuel with
  | zero =>
    intro T g _ _ _ hmetric _ _
    rcases hmetric with ⟨dn, h1, h2, h3, _⟩
    omega
  | succ m ih =>
    intro T g hlen hg hgocc hmetric hdup hdk
    unfold delete_outer
    dsimp only
    have hglen : g < T.length := by omega
    have hc0 : ({ T.getD g emptyRI with p := 0, size := 0 } : region_info).p = 0 := rfl
    set cl := T.set g { T.getD g emptyRI with p := 0, size := 0 } with hcldef
    have hcllen : cl.length = total := by
      rw [hcldef, List.length_set]; exact hlen
    have hclg : (cl.getD g emptyRI).p = 0 := by
      rw [hcldef, getD_set_self T g hglen _ emptyRI]
    have hclne : ∀ y, y ≠ g → cl.getD y emptyRI = T.getD y emptyRI := by
      intro y hy
      rw [hcldef, getD_set_ne T (fun hc => hy hc.symm) _ emptyRI]
    have hclocc : occupiedCount cl + 1 = occupiedCount T := by
      have := occupiedCount_set T g { T.getD g emptyRI with p := 0, size := 0 } hglen
      rw [if_pos hgocc, if_neg (not_not_intro hc0)] at this
      rw [← hcldef] at this
      omega
    rcases hscan : delete_scan cl total g g total with _ | x0
    · -- the gap is final: the cleared table already satisfies the invariant
      obtain ⟨dn0, hdn1, hdn2, hdnnull, hskip⟩ :=
        delete_scan_none_spec hg total 0 g (cyc_sub_zero total g hg).symm
          ⟨total, by omega, by omega, by rw [cyc_sub_total total g hg]; exact hclg⟩
          hscan
      have hpi : probeInv cl total := by
        intro i hi hiocc k hk
        have hig : i ≠ g := by
          intro hc
          rw [hc] at hiocc
          exact hiocc hclg
        rw [hclne i hig] at hiocc hk ⊢
        have hrlt : hash_page (T.getD i emptyRI).p % total < total := Nat.mod_lt _ h0
        have hDlt : dmod total (hash_page (T.getD i emptyRI).p % total) i < total :=
          dmod_lt _ _ _ hrlt hi
        have hnog : ∀ k', k' < dmod total
            (hash_page (T.getD i emptyRI).p % total) i →
            cyc_sub total (hash_page (T.getD i emptyRI).p % total) k' ≠ g := by
          intro k' hk' hceq
          have hk't : k' < total := by omega
          have hAg : dmod total (hash_page (T.getD i emptyRI).p % total) g = k' := by
            rw [← hceq]
            exact dmod_cyc_sub total _ k' hrlt hk't
          have hie : cyc_sub total g
              (dmod total (hash_page (T.getD i emptyRI).p % total) i - k') = i := by
            rw [← hceq, cyc_sub_add total _ k' _ hrlt,
              show k' + (dmod total (hash_page (T.getD i emptyRI).p % total) i - k')
                = dmod total (hash_page (T.getD i emptyRI).p % total) i by omega]
            exact cyc_sub_dmod total _ i hrlt hi
          rcases Nat.lt_trichotomy
              (dmod total (hash_page (T.getD i emptyRI).p % total) i - k') dn0 with
            he | he | he
          · have hsk := hskip _ (by omega) he
            rw [hie] at hsk
            rw [hclne i hig] at hsk
            have hcond := (delete_cond_iff total i
              (hash_page (T.getD i emptyRI).p % total) g hi hrlt hg hig).mp hsk.2
            omega
          · rw [← he, hie] at hdnnull
            rw [hclne i hig] at hdnnull
            exact hiocc hdnnull
          · have hdn0t : dn0 < total := by omega
            have hnu : cyc_sub total g dn0 = cyc_sub total
                (hash_page (T.getD i emptyRI).p % total) (k' + dn0) := by
              rw [← hceq, cyc_sub_add total _ k' dn0 hrlt]
            have hnug : cyc_sub total g dn0 ≠ g :=
              cyc_sub_ne_base total g dn0 hg hdn1 hdn0t
            have hocc2 := hdup i hi hig hiocc (k' + dn0) (by omega)
            rw [← hnu] at hocc2
            rw [← hclne _ hnug] at hocc2
            exact hocc2 hdnnull
        have hcell := hnog k hk
        rw [hclne _ hcell]
        exact hdup i hi hig hiocc k hk
      have hdkcl : distinctKeys cl total := by
        intro x y hx hy hxy hxocc
        have hxg : x ≠ g := by
          intro hc
          rw [hc] at hxocc
          exact hxocc hclg
        by_cases hyg : y = g
        · rw [hyg]
          intro heq
          rw [hclg] at heq
          exact hxocc heq
        · rw [hclne x hxg, hclne y hyg]
          intro heq
          rw [hclne x hxg] at hxocc
          rcases hdk x y hx hy hxy hxocc heq with hc | hc
          · exact hxg hc
          · exact hyg hc
      exact ⟨hcllen, hclocc, hpi, hdkcl⟩
    · -- an item is shifted into the gap; recurse from its old slot
      obtain ⟨dx, hdx1, hdx2, hxeq, hxocc, hcondf, hskip⟩ :=
        delete_scan_some_spec hg total 0 g x0 (cyc_sub_zero total g hg).symm hscan
      have hdxlt : dx < total := by
        rcases Nat.lt_or_ge dx total with h | h
        · exact h
        · have hdxt : dx = total := by omega
          rw [hdxt, cyc_sub_total total g hg] at hxeq
          rw [hxeq] at hxocc
          exact absurd hclg hxocc
      have hx0g : x0 ≠ g := by
        rw [hxeq]
        exact cyc_sub_ne_base total g dx hg hdx1 hdxlt
      have hx0lt : x0 < total := by
        rw [hxeq]
        exact cyc_sub_lt total g dx h0
      have hclx : cl.getD x0 emptyRI = T.getD x0 emptyRI := hclne x0 hx0g
      have hTx0 : (T.getD x0 emptyRI).p ≠ 0 := by
        rw [← hclx]
        exact hxocc
      have hgcllen : g < cl.length := by omega
      have hT2g : (cl.set g (cl.getD x0 emptyRI)).getD g emptyRI
          = T.getD x0 emptyRI := by
        rw [getD_set_self cl g hgcllen _ emptyRI]
        exact hclx
      have hT2ne : ∀ y, y ≠ g →
          (cl.set g (cl.getD x0 emptyRI)).getD y emptyRI = T.getD y emptyRI := by
        intro y hy
        rw [getD_set_ne cl (fun hc => hy hc.symm) _ emptyRI]
        exact hclne y hy
      have hT2occ : ∀ y, ((cl.set g (cl.getD x0 emptyRI)).getD y emptyRI).p ≠ 0 ↔
          (T.getD y emptyRI).p ≠ 0 := by
        intro y
        by_cases hy : y = g
        · rw [hy, hT2g]
          constructor
          · intro _; exact hgocc
          · intro _; exact hTx0
        · rw [hT2ne y hy]
      have hrx : hash_page (T.getD x0 emptyRI).p % total < total := Nat.mod_lt _ h0
      have hgap : dmod total (hash_page (T.getD x0 emptyRI).p % total) g <
          dmod total (hash_page (T.getD x0 emptyRI).p % total) x0 := by
        rw [hclx] at hcondf
        have := delete_cond_iff total x0
          (hash_page (T.getD x0 emptyRI).p % total) g hx0lt hrx hg hx0g
        rcases Nat.lt_or_ge (dmod total (hash_page (T.getD x0 emptyRI).p % total) g)
          (dmod total (hash_page (T.getD x0 emptyRI).p % total) x0) with h | h
        · exact h
        · rw [this.mpr h] at hcondf
          cases hcondf
      have happ := ih (cl.set g (cl.getD x0 emptyRI)) x0
        (by rw [List.length_set]; exact hcllen) hx0lt
        (by
          rw [hT2ne x0 hx0g]
          exact hTx0)
        (by
          rcases hmetric with ⟨dn, hm1, hm2, hm3, hmnull⟩
          have hnug : cyc_sub total g dn ≠ g := cyc_sub_ne_base total g dn hg hm1 hm2
          have hdngt : dx < dn := by
            rcases Nat.lt_trichotomy dn dx with h | h | h
            · have := hskip dn hm1 h
              rw [hclne _ hnug] at this
              exact absurd hmnull this.1
            · rw [h, ← hxeq] at hmnull
              exact absurd hmnull hTx0
            · exact h
          refine ⟨dn - dx, by omega, by omega, by omega, ?_⟩
          have hpos : cyc_sub total x0 (dn - dx) = cyc_sub total g dn := by
            rw [hxeq, cyc_sub_add total g dx _ hg,
              show dx + (dn - dx) = dn by omega]
          rw [hpos, hT2ne _ hnug]
          exact hmnull)
        (by
          intro i hi hix hiocc k hk
          by_cases hig : i = g
          · rw [hig, hT2g] at hiocc hk ⊢
            have hkx : k < dmod total
                (hash_page (T.getD x0 emptyRI).p % total) x0 := by omega
            have := hdup x0 hx0lt hx0g hTx0 k hkx
            rw [hT2occ]
            exact this
          · rw [hT2ne i hig] at hiocc hk ⊢
            rw [hT2occ]
            exact hdup i hi hig hiocc k hk)
        (by
          intro x y hx hy hxy hxocc2 heq
          by_cases hxg : x = g
          · by_cases hyx : y = x0
            · exact Or.inr hyx
            · rw [hxg, hT2g] at hxocc2 heq
              rw [hT2ne y (by omega)] at heq
              rcases hdk x0 y hx0lt hy (by omega) hTx0 heq with hc | hc
              · exact absurd hc hx0g
              · exact absurd hc (by omega)
          · by_cases hyg : y = g
            · by_cases hxx : x = x0
              · exact Or.inl hxx
              · rw [hT2ne x hxg] at hxocc2 heq
                rw [hyg, hT2g] at heq
                rcases hdk x x0 hx hx0lt (by omega) hxocc2 heq with hc | hc
                · exact absurd hc hxg
                · exact absurd hc hx0g
            · rw [hT2ne x hxg] at hxocc2 heq
              rw [hT2ne y hyg] at heq
              rcases hdk x y hx hy hxy hxocc2 heq with hc | hc
              · exact absurd hc hxg
              · exact absurd hc hyg)
      have hT2count : occupiedCount (cl.set g (cl.getD x0 emptyRI)) =
          occupiedCount T := by
        have := occupiedCount_set cl g (cl.getD x0 emptyRI) hgcllen
        rw [if_neg (not_not_intro hclg), if_pos hxocc] at this
        omega
      refine ⟨happ.1, ?_, happ.2.2.1, happ.2.2.2⟩
      rw [happ.2.1, hT2count]

theorem regions_delete_inv {s : RegionsState} {p slot : Nat}
    (hinv : RTInv s) (hfind : regions_find s p = some slot) :
    RTInv (regions_delete s slot) := by
  obtain ⟨hlen, h256, hfree, hload, hpi, hdk⟩ := hinv
  have hini : initial_region_table_size = 256 := rfl
  have h0 : 0 < s.regions_total := by omega
  unfold regions_find at hfind
  obtain ⟨hslot, hkey, hp0⟩ := regions_find_loop_some _ _ _ (Nat.mod_lt _ h0) hfind
  have hslotocc : (s.regions.getD slot emptyRI).p ≠ 0 := by
    rw [hkey]
    exact hp0
  have hocclt : occupiedCount s.regions < s.regions_total := by omega
  rcases exists_null_of_occ_lt s.regions (by omega) with ⟨j, hj, hjnull⟩
  have hjt : j < s.regions_total := by omega
  have hjs : slot ≠ j := by
    intro hc
    rw [← hc] at hjnull
    exact hslotocc hjnull
  have hstep := delete_outer_spec s.regions_total h0 s.regions_total s.regions slot
    hlen hslot hslotocc
    ⟨dmod s.regions_total slot j, by
      rcases Nat.eq_zero_or_pos (dmod s.regions_total slot j) with hz | hz
      · exact absurd ((dmod_eq_zero_iff _ _ _ hslot hjt).mp hz) hjs
      · omega,
     dmod_lt _ _ _ hslot hjt, Nat.le_of_lt (dmod_lt _ _ _ hslot hjt), by
      rw [cyc_sub_dmod _ _ _ hslot hjt]
      exact hjnull⟩
    (fun i hi _ hiocc k hk => hpi i hi hiocc k hk)
    (fun x y hx hy hxy hxocc heq => absurd heq (hdk x y hx hy hxy hxocc))
  obtain ⟨hlen', hocc', hpi', hdk'⟩ := hstep
  refine ⟨hlen', h256, ?_, ?_, hpi', hdk'⟩
  · dsimp only [regions_delete]
    omega
  · dsimp only [regions_delete]
    omega

theorem rtstep_inv {s s' : RegionsState} (hinv : RTInv s) (hstep : RTStep s s') :
    RTInv s' := by
  cases hstep with
  | insert ok p sz g s' hp hfresh hins => exact regions_insert_inv hinv hp hfresh hins
  | delete p slot hfind => exact regions_delete_inv hinv hfind

theorem rtinv_init : RTInv init_regions := by
  refine ⟨by simp [init_regions], Nat.le_refl _, ?_, ?_, ?_, ?_⟩
  · show initial_region_table_size +
      occupiedCount (List.replicate initial_region_table_size emptyRI) =
        initial_region_table_size
    rw [occupiedCount_replicate]
    omega
  · show 4 * occupiedCount (List.replicate initial_region_table_size emptyRI) ≤ _
    rw [occupiedCount_replicate]
    omega
  · intro i hi hiocc
    exact absurd (by
      show ((List.replicate initial_region_table_size emptyRI).getD i emptyRI).p = 0
      rw [getD_replicate]
      rfl) hiocc

  · intro x y hx hy hxy hxocc
    exact absurd (by
      show ((List.replicate initial_region_table_size emptyRI).getD x emptyRI).p = 0
      rw [getD_replicate]
      rfl) hxocc

/-- Any reachable region-table state satisfies the full invariant. -/
theorem rtreach_inv {s : RegionsState} (h : RTReach s) : RTInv s := by
  unfold RTReach at h
  induction h with
  | refl => exact rtinv_init
  | tail hreach hstep ih => exact rtstep_inv ih hstep

/-! ### Claim C1 -/

/-- The state after inserting the single region (base 4096, size 100). -/
def C1_s1 : RegionsState :=
  match regions_insert init_regions true 4096 100 0 with
  | some s => s
  | none => init_regions

/-- C1: after any sequence of large-allocation inserts and deletes on the
region table (with regions_grow as needed), every key still present is found
by regions_find — at its own slot — and no base pointer occurs in two
distinct slots. -/
theorem C1_region_table_find_no_dup (s : RegionsState) (h : RTReach s) :
    (∀ i, i < s.regions_total → (s.regions.getD i emptyRI).p ≠ 0 →
      regions_find s (s.regions.getD i emptyRI).p = some i) ∧
    (∀ i j, i < s.regions_total → j < s.regions_total → i ≠ j →
      (s.regions.getD i emptyRI).p ≠ 0 →
      (s.regions.getD i emptyRI).p ≠ (s.regions.getD j emptyRI).p) := by
  obtain ⟨hlen, h256, hfree, hload, hpi, hdk⟩ := rtreach_inv h
  have hini : initial_region_table_size = 256 := rfl
  have h0 : 0 < s.regions_total := by omega
  exact ⟨fun i hi hocc => regions_find_of_inv hlen h0 hpi hdk i hi hocc, hdk⟩

theorem C1_region_table_find_no_dup_witness :
    regions_find C1_s1 4096 = some 127 ∧
      (C1_s1.regions.getD 127 emptyRI).p = 4096 := by
  have hins : regions_insert init_regions true 4096 100 0 = some C1_s1 := by rfl
  have hfresh : ∀ i, i < init_regions.regions_total →
      (init_regions.regions.getD i emptyRI).p ≠ 4096 := by
    intro i _
    show ((List.replicate initial_region_table_size emptyRI).getD i emptyRI).p ≠ 4096
    rw [getD_replicate]
    decide
  have hreach : RTReach C1_s1 :=
    Relation.ReflTransGen.single
      (RTStep.insert init_regions true 4096 100 0 C1_s1 (by decide) hfresh hins)
  have hkey : (C1_s1.regions.getD 127 emptyRI).p = 4096 := by rfl
  have h127 : (127 : Nat) < C1_s1.regions_total := by
    show (127 : Nat) < 256
    decide
  refine ⟨?_, hkey⟩
  have hf := (C1_region_table_find_no_dup C1_s1 hreach).1 127 h127
    (by rw [hkey]; decide)
  rw [hkey] at hf
  exact hf

/-! ### Claim C2 -/

/-- Repeated regions_insert of nonzero keys not yet in the table (the only
way the allocator ever inserts), as a single driver. -/
def insertManyFresh (s : RegionsState) : List Nat → Option RegionsState
  | [] => some s
  | p :: ps =>
    match (if (p != 0) && s.regions.all (fun c => c.p != p)
        then regions_insert s true p 4096 0 else none) with
    | none => none
    | some s1 => insertManyFresh s1 ps

theorem insertManyFresh_reach :
    ∀ (l : List Nat) (s s' : RegionsState), RTReach s →
      insertManyFresh s l = some s' → RTReach s' := by
  intro l
  induction l with
  | nil =>
    intro s s' hr h
    unfold insertManyFresh at h
    cases h
    exact hr
  | cons p ps ih =>
    intro s s' hr h
    unfold insertManyFresh at h
    by_cases hb : ((p != 0) && s.regions.all (fun c => c.p != p)) = true
    · rw [if_pos hb] at h
      rw [Bool.and_eq_true] at hb
      have hb1 : p ≠ 0 := by simpa [bne_iff_ne] using hb.1
      have hb2 : ∀ c ∈ s.regions, c.p ≠ p := by
        have := List.all_eq_true.mp hb.2
        intro c hc
        simpa [bne_iff_ne] using this c hc
      have hlen := (rtreach_inv hr).1
      have hfresh : ∀ i, i < s.regions_total →
          (s.regions.getD i emptyRI).p ≠ p := by
        intro i hi
        have hil : i < s.regions.length := by omega
        rw [List.getD_eq_getElem s.regions emptyRI hil]
        exact hb2 _ (List.getElem_mem hil)
      rcases hins : regions_insert s true p 4096 0 with _ | s1
      · rw [hins] at h
        cases h
      · rw [hins] at h
        dsimp only at h
        exact ih s1 s' (hr.tail (RTStep.insert s true p 4096 0 s1 hb1 hfresh hins)) h
    · rw [if_neg hb] at h
      cases h

/-- 193 fresh page-aligned keys: enough inserts to pass 50% load without yet
triggering a grow (the grow test `regions_free * 4 < regions_total` first
fires on insert 194, since 64 * 4 = 256). -/
def C2_keys : List Nat := (List.range 193).map (fun k => (k + 1) * 4096)

def C2_s : RegionsState :=
  match insertManyFresh init_regions C2_keys with
  | some s => s
  | none => init_regions

/-- C2 is false as stated: a reachable region-table state (193 successful
inserts from the initial table) has 193 of 256 slots occupied — a load factor
above 75%, not below 50%. -/
theorem C2_load_half_counterexample :
    ∃ s : RegionsState, RTReach s ∧ s.regions_total = 256 ∧
      occupiedCount s.regions = 193 ∧
      ¬ 2 * occupiedCount s.regions < s.regions_total := by
  have hrun : insertManyFresh init_regions C2_keys = some C2_s := by rfl
  have hocc : occupiedCount C2_s.regions = 193 := by rfl
  have htot : C2_s.regions_total = 256 := by rfl
  refine ⟨C2_s, insertManyFresh_reach C2_keys init_regions C2_s
    Relation.ReflTransGen.refl hrun, htot, hocc, ?_⟩
  rw [hocc, htot]
  decide

/-- C2 (amended): what the code maintains is `4 * occupied ≤ 3 * total + 4`
(the load factor stays at or below about 75%); the growth trigger
`regions_free * 4 < regions_total` only guarantees that bound, not 50%. -/
theorem C2_load_factor_bound (s : RegionsState) (h : RTReach s) :
    4 * occupiedCount s.regions ≤ 3 * s.regions_total + 4 :=
  (rtreach_inv h).2.2.2.1

theorem C2_load_factor_bound_witness :
    4 * occupiedCount init_regions.regions ≤ 3 * init_regions.regions_total + 4 :=
  C2_load_factor_bound init_regions Relation.ReflTransGen.refl

end HardenedMalloc
